import Mathlib

/-!
Shallow embedding of the core of the ResearchOS biomechanics analysis
platform (Python), covering:

* the subset condition evaluator and its ancestor fallback
  (`src/ResearchOS/PipelineObjects/subset.py`, `Subset.meets_conditions`,
  `Subset.get_subset`, `Subset.validate_conditions`),
* data-object attribute loading
  (`src/ResearchOS/DataObjects/data_object.py`, `DataObject.load_vr_value`),
* dataset schema validation
  (`src/ResearchOS/DataObjects/dataset.py`, `Dataset.validate_schema`),
* the pipeline graph builder
  (`src/ResearchOS/build_pl.py`, `build_pl`, `make_all_edges`),
* cross-package bridging
  (`src/ResearchOS/create_dag_from_toml.py`, `bridge_packages`,
  `bridge_dynamic_variables`; `src/ResearchOS/overhaul/input_classifier.py`,
  `classify_input_type`).

Python values that flow through the condition language are modelled by the
`PyVal` type below; Python exceptions are modelled by `Except String`.
-/

set_option maxHeartbeats 1000000

namespace ResearchOS

/-- A model of the Python values that can appear in condition trees and in
the value store: `None`, booleans, integers, strings, lists, string-keyed
dictionaries, and opaque (non-JSON-serializable) objects identified by a tag.
Tuples are represented by `list`, which has the same subscripting and
equality behaviour on this fragment. -/
inductive PyVal where
  | none
  | bool (b : Bool)
  | int (n : Int)
  | str (s : String)
  | list (xs : List PyVal)
  | dict (entries : List (String × PyVal))
  | obj (tag : Nat)

mutual
/-- Python `==` on the `PyVal` fragment: numeric cross-equality between
`bool` and `int` (Python's `bool` is a subclass of `int`), structural
equality for lists, entrywise equality for dictionaries (our dictionaries
are ordered association lists; Python dictionaries with the same entries in
the same insertion order compare equal entrywise), tag equality for opaque
objects, and `False` across different kinds. -/
def pyEq : PyVal → PyVal → Bool
  | .none, .none => true
  | .bool a, .bool b => a == b
  | .bool a, .int n => (if a then (1 : Int) else 0) == n
  | .int n, .bool a => n == (if a then (1 : Int) else 0)
  | .int a, .int b => a == b
  | .str a, .str b => a == b
  | .list a, .list b => pyEqList a b
  | .dict a, .dict b => pyEqEntries a b
  | .obj a, .obj b => a == b
  | _, _ => false

/-- Elementwise Python `==` on lists. -/
def pyEqList : List PyVal → List PyVal → Bool
  | [], [] => true
  | x :: xs, y :: ys => pyEq x y && pyEqList xs ys
  | _, _ => false

/-- Entrywise Python `==` on dictionary entries. -/
def pyEqEntries : List (String × PyVal) → List (String × PyVal) → Bool
  | [], [] => true
  | (k1, v1) :: xs, (k2, v2) :: ys => k1 == k2 && pyEq v1 v2 && pyEqEntries xs ys
  | _, _ => false
end

/-- Python subscripting `v[i]` for a non-negative integer index: lists index
into their elements, strings yield one-character strings, dictionaries with
string keys raise `KeyError` for an integer key, and other values raise
`TypeError`. -/
def pySub (v : PyVal) (i : Nat) : Except String PyVal :=
  match v with
  | .list xs =>
    match xs.get? i with
    | some x => .ok x
    | Option.none => .error "IndexError"
  | .str s =>
    match s.data.get? i with
    | some c => .ok (.str (String.mk [c]))
    | Option.none => .error "IndexError"
  | .dict _ => .error "KeyError"
  | _ => .error "TypeError"

/-- Python `member in container`: lists test `==` against each element,
strings test substring containment (raising `TypeError` for a non-string
member), dictionaries test key membership, and other containers raise
`TypeError`. -/
def pyIn (member container : PyVal) : Except String Bool :=
  match container with
  | .list xs => .ok (xs.any (fun x => pyEq member x))
  | .str s =>
    match member with
    | .str m => .ok (decide (List.IsInfix m.data s.data))
    | _ => .error "TypeError"
  | .dict entries =>
    match member with
    | .str m => .ok (entries.any (fun e => e.1 == m))
    | _ => .ok false
  | _ => .error "TypeError"

mutual
/-- Python `<` on the fragment: numeric order between integers and booleans,
lexicographic order on strings and lists, `TypeError` elsewhere. -/
def pyLt : PyVal → PyVal → Except String Bool
  | .int a, .int b => .ok (decide (a < b))
  | .int a, .bool b => .ok (decide (a < (if b then (1 : Int) else 0)))
  | .bool a, .int b => .ok (decide ((if a then (1 : Int) else 0) < b))
  | .bool a, .bool b => .ok (decide ((if a then (1 : Int) else 0) < (if b then (1 : Int) else 0)))
  | .str a, .str b => .ok (decide (a < b))
  | .list a, .list b => pyLtList a b
  | _, _ => .error "TypeError"

/-- Python's lexicographic `<` on lists: skip equal prefixes, compare the
first differing elements, a strict prefix is smaller. -/
def pyLtList : List PyVal → List PyVal → Except String Bool
  | [], [] => .ok false
  | [], _ :: _ => .ok true
  | _ :: _, [] => .ok false
  | x :: xs, y :: ys =>
    if pyEq x y then pyLtList xs ys else pyLt x y
end

/-- Python `>` : `a > b` coincides with `b < a` on this fragment. -/
def pyGt (a b : PyVal) : Except String Bool := pyLt b a

/-- Python `<=` on the fragment: equality or strict order (this coincides
with Python's `<=` on numbers, strings and lists). -/
def pyLe (a b : PyVal) : Except String Bool :=
  if pyEq a b then .ok true else pyLt a b

/-- Python `>=` : `a >= b` coincides with `b <= a` on this fragment. -/
def pyGe (a b : PyVal) : Except String Bool := pyLe b a

/-- Python `is` identity. Object identity is not representable in a value
model; we model `is` as agreement of the singleton/interned values (`None`,
booleans) and tag equality for opaque objects, `False` otherwise. No code
path verified here depends on `is` for other kinds. -/
def pyIs : PyVal → PyVal → Bool
  | .none, .none => true
  | .bool a, .bool b => a == b
  | .obj a, .obj b => a == b
  | _, _ => false

mutual
/-- `True` exactly for the values Python's `json.dumps` can serialize in
this fragment: everything except opaque objects. -/
def jsonSerializable : PyVal → Bool
  | .obj _ => false
  | .list xs => jsonSerializableList xs
  | .dict es => jsonSerializableEntries es
  | _ => true

/-- Serializability of every element of a list. -/
def jsonSerializableList : List PyVal → Bool
  | [] => true
  | x :: xs => jsonSerializable x && jsonSerializableList xs

/-- Serializability of every value of a dictionary. -/
def jsonSerializableEntries : List (String × PyVal) → Bool
  | [] => true
  | (_, v) :: es => jsonSerializable v && jsonSerializableEntries es
end

/-- Python `isinstance(v, int)`: `True` for integers and booleans
(`bool` is a subclass of `int` in Python). -/
def isInstInt : PyVal → Bool
  | .int _ => true
  | .bool _ => true
  | _ => false

/-- First value for a string key in an ordered entry list
(Python dictionary lookup). -/
def lookupKey (entries : List (String × PyVal)) (k : String) : Option PyVal :=
  match entries with
  | [] => Option.none
  | (k', v) :: rest => if k' == k then some v else lookupKey rest k

/-- Nonempty-path reachability along the directed edge list `es`:
`Reaches es a b` holds when there is a path of one or more edges from `a`
to `b`. `networkx.ancestors(G, n)` is the set of nodes with such a path to
`n` (excluding `n` itself). -/
inductive Reaches (es : List (String × String)) : String → String → Prop
  | single {a b : String} : (a, b) ∈ es → Reaches es a b
  | head {a b c : String} : (a, b) ∈ es → Reaches es b c → Reaches es a c

/-- The edge sources not yet in `s` whose edge target is in `s`. -/
def ancNew (es : List (String × String)) (s : List String) : List String :=
  (es.map Prod.fst).dedup.filter
    (fun a => !(decide (a ∈ s)) && es.any (fun e => e.1 == a && decide (e.2 ∈ s)))

/-- One step of the ancestor closure: add every edge source whose edge
target is already in the set. -/
def ancStep (es : List (String × String)) (s : List String) : List String :=
  s ++ ancNew es s

/-- Iterate `ancStep` a fixed number of times. -/
def ancIter (es : List (String × String)) : Nat → List String → List String
  | 0, s => s
  | n + 1, s => ancIter es n (ancStep es s)

/-- The embedding of `networkx.ancestors(G, t)`: all nodes with a directed
path to `t`, excluding `t` itself. Computed as an iterated predecessor
closure; `es.length + 1` iterations always reach the fixpoint. -/
def pyAncestors (es : List (String × String)) (t : String) : List String :=
  (ancIter es (es.length + 1) [t]).filter (fun a => a != t)

theorem Reaches.trans {es : List (String × String)} {a b c : String}
    (h1 : Reaches es a b) (h2 : Reaches es b c) : Reaches es a c := by
  induction h1 with
  | single h => exact Reaches.head h h2
  | head h _ ih => exact Reaches.head h (ih h2)

theorem subset_ancStep (es : List (String × String)) (s : List String) :
    s ⊆ ancStep es s := by
  intro x hx
  exact List.mem_append_left _ hx

theorem subset_ancIter (es : List (String × String)) (n : Nat) (s : List String) :
    s ⊆ ancIter es n s := by
  induction n generalizing s with
  | zero => intro x hx; exact hx
  | succ n ih =>
    intro x hx
    exact ih (ancStep es s) (subset_ancStep es s hx)

theorem mem_ancStep_cases {es : List (String × String)} {s : List String} {x : String}
    (hx : x ∈ ancStep es s) :
    x ∈ s ∨ (x ∉ s ∧ ∃ e ∈ es, e.1 = x ∧ e.2 ∈ s) := by
  rcases List.mem_append.mp hx with h | h
  · exact Or.inl h
  · right
    unfold ancNew at h
    have hf := List.mem_filter.mp h
    have hcond := hf.2
    rw [Bool.and_eq_true] at hcond
    constructor
    · have := hcond.1
      simp only [Bool.not_eq_true', decide_eq_false_iff_not] at this
      exact this
    · rcases List.any_eq_true.mp hcond.2 with ⟨e, he, hcond2⟩
      rw [Bool.and_eq_true] at hcond2
      refine ⟨e, he, ?_, ?_⟩
      · exact beq_iff_eq.mp hcond2.1
      · exact of_decide_eq_true hcond2.2

/-- Everything `ancStep` adds to a set of reachers of `t` is itself a
reacher of `t`. -/
theorem ancStep_sound {es : List (String × String)} {t : String} {s : List String}
    (hs : ∀ x ∈ s, x = t ∨ Reaches es x t) :
    ∀ x ∈ ancStep es s, x = t ∨ Reaches es x t := by
  intro x hx
  rcases mem_ancStep_cases hx with h | ⟨_, e, he, he1, he2⟩
  · exact hs x h
  · right
    rcases hs e.2 he2 with h2 | h2
    · subst he1; exact Reaches.single (h2 ▸ he)
    · subst he1; exact Reaches.head he h2

theorem ancIter_sound {es : List (String × String)} {t : String} {s : List String}
    (hs : ∀ x ∈ s, x = t ∨ Reaches es x t) (n : Nat) :
    ∀ x ∈ ancIter es n s, x = t ∨ Reaches es x t := by
  induction n generalizing s with
  | zero => exact hs
  | succ n ih => exact ih (ancStep_sound hs)

theorem ancIter_succ_outer (es : List (String × String)) (n : Nat) (s : List String) :
    ancIter es (n + 1) s = ancStep es (ancIter es n s) := by
  induction n generalizing s with
  | zero => rfl
  | succ n ih =>
    show ancIter es (n + 1) (ancStep es s) = _
    rw [ih (ancStep es s)]
    rfl

theorem mem_ancNew_not_mem {es : List (String × String)} {s : List String} {x : String}
    (hx : x ∈ ancNew es s) : x ∉ s := by
  unfold ancNew at hx
  have := (List.mem_filter.mp hx).2
  rw [Bool.and_eq_true] at this
  have h1 := this.1
  simp only [Bool.not_eq_true', decide_eq_false_iff_not] at h1
  exact h1

theorem ancStep_nodup {es : List (String × String)} {s : List String}
    (h : s.Nodup) : (ancStep es s).Nodup := by
  unfold ancStep
  apply List.Nodup.append h
  · unfold ancNew
    exact ((es.map Prod.fst).nodup_dedup).filter _
  · intro x hx hx2
    exact mem_ancNew_not_mem hx2 hx

theorem ancStep_subset_nodes {es : List (String × String)} {t : String} {s : List String}
    (h : s ⊆ t :: es.map Prod.fst) : ancStep es s ⊆ t :: es.map Prod.fst := by
  intro x hx
  rcases List.mem_append.mp hx with hx | hx
  · exact h hx
  · unfold ancNew at hx
    exact List.mem_cons_of_mem _ ((es.map Prod.fst).dedup_subset (List.mem_filter.mp hx).1)

theorem ancIter_subset_nodes {es : List (String × String)} {t : String} {s : List String}
    (h : s ⊆ t :: es.map Prod.fst) (n : Nat) : ancIter es n s ⊆ t :: es.map Prod.fst := by
  induction n generalizing s with
  | zero => exact h
  | succ n ih => exact ih (ancStep_subset_nodes h)

theorem ancIter_nodup {es : List (String × String)} {s : List String}
    (h : s.Nodup) (n : Nat) : (ancIter es n s).Nodup := by
  induction n generalizing s with
  | zero => exact h
  | succ n ih => exact ih (ancStep_nodup h)

theorem ancStep_length_lt {es : List (String × String)} {s : List String}
    (h : ancStep es s ≠ s) : s.length + 1 ≤ (ancStep es s).length := by
  have hne : ancNew es s ≠ [] := by
    intro h0
    apply h
    simp [ancStep, h0]
  have hpos : 0 < (ancNew es s).length := List.length_pos.mpr hne
  have : (ancStep es s).length = s.length + (ancNew es s).length := by
    simp [ancStep]
  omega

theorem ancStep_fix_stable {es : List (String × String)} {s : List String}
    (h : ancStep es s = s) (n : Nat) : ancIter es n s = s := by
  induction n with
  | zero => rfl
  | succ n ih => rw [ancIter_succ_outer, ih, h]

theorem ancIter_growth {es : List (String × String)} {t : String} (n : Nat)
    (h : ∀ k, k < n → ancStep es (ancIter es k [t]) ≠ ancIter es k [t]) :
    n + 1 ≤ (ancIter es n [t]).length := by
  induction n with
  | zero => simp [ancIter]
  | succ n ih =>
    have hlt := ancStep_length_lt (h n (Nat.lt_succ_self n))
    have hrec := ih (fun k hk => h k (Nat.lt_succ_of_lt hk))
    rw [ancIter_succ_outer]
    omega

/-- After `es.length + 1` iterations the predecessor closure has reached a
fixpoint. -/
theorem ancIter_final_fix (es : List (String × String)) (t : String) :
    ancStep es (ancIter es (es.length + 1) [t]) = ancIter es (es.length + 1) [t] := by
  by_contra hne
  have hall : ∀ k, k < es.length + 2 → ancStep es (ancIter es k [t]) ≠ ancIter es k [t] := by
    intro k hk hfix
    apply hne
    have hstable : ∀ m, ancIter es (k + m) [t] = ancIter es k [t] := by
      intro m
      induction m with
      | zero => rfl
      | succ m ih =>
        have : k + (m + 1) = (k + m) + 1 := by omega
        rw [this, ancIter_succ_outer, ih, hfix]
    have hk1 : k ≤ es.length + 1 := by omega
    have := hstable (es.length + 1 - k)
    rw [Nat.add_sub_cancel' hk1] at this
    rw [this, hfix]
  have hlen := ancIter_growth (es.length + 2) (fun k hk => hall k hk)
  have hnodup : (ancIter es (es.length + 2) [t]).Nodup :=
    ancIter_nodup (List.nodup_singleton t) _
  have hsub : ancIter es (es.length + 2) [t] ⊆ t :: es.map Prod.fst :=
    ancIter_subset_nodes (by
      intro x hx
      rw [List.mem_singleton] at hx
      subst hx
      exact List.mem_cons_self _ _) _
  have hbound : (ancIter es (es.length + 2) [t]).length ≤ (t :: es.map Prod.fst).length :=
    (hnodup.subperm hsub).length_le
  simp only [List.length_cons, List.length_map] at hbound
  omega

/-- The fixpoint is closed under taking edge sources: if `b` is in the
closure and `(a, b)` is an edge, then `a` is in the closure. -/
theorem ancIter_final_closed {es : List (String × String)} {t : String} {a b : String}
    (he : (a, b) ∈ es) (hb : b ∈ ancIter es (es.length + 1) [t]) :
    a ∈ ancIter es (es.length + 1) [t] := by
  by_contra ha
  have hmem : a ∈ ancStep es (ancIter es (es.length + 1) [t]) := by
    apply List.mem_append_right
    unfold ancNew
    apply List.mem_filter.mpr
    refine ⟨List.mem_dedup.mpr (List.mem_map.mpr ⟨(a, b), he, rfl⟩), ?_⟩
    rw [Bool.and_eq_true]
    constructor
    · simpa using ha
    · exact List.any_eq_true.mpr ⟨(a, b), he, by simp [hb]⟩
  rw [ancIter_final_fix] at hmem
  exact ha hmem

theorem reaches_mem_final {es : List (String × String)} {t a : String}
    (h : Reaches es a t) : a ∈ ancIter es (es.length + 1) [t] := by
  induction h with
  | single he =>
    exact ancIter_final_closed he (subset_ancIter es _ _ (List.mem_singleton_self _))
  | head he _ ih => exact ancIter_final_closed he ih

/-- Specification of the embedded `networkx.ancestors`: membership is
exactly nonempty-path reachability to the target, excluding the target. -/
theorem mem_pyAncestors {es : List (String × String)} {t a : String} :
    a ∈ pyAncestors es t ↔ Reaches es a t ∧ a ≠ t := by
  unfold pyAncestors
  rw [List.mem_filter]
  constructor
  · rintro ⟨hmem, hne⟩
    have hne' : a ≠ t := by simpa using hne
    have hs0 : ∀ x ∈ [t], x = t ∨ Reaches es x t := by
      intro x hx
      left
      simpa using hx
    rcases ancIter_sound hs0 _ a hmem with h | h
    · exact absurd h hne'
    · exact ⟨h, hne'⟩
  · rintro ⟨hr, hne⟩
    exact ⟨reaches_mem_final hr, by simpa using hne⟩

/-- The slice of the persisted store that `DataObject.load_vr_value` reads:
`assoc` models the rows of `vr_dataobjects` with `is_active = 1`
(pairs of data-object id and variable id), and `vals` models the
composition of `data_values` with `data_values_blob` — the unpickled value
stored for a (data-object, variable) pair. -/
structure Store where
  assoc : List (String × String)
  vals : List ((String × String) × PyVal)

/-- Lookup in the `vals` association list. -/
def lookupVal (vals : List ((String × String) × PyVal)) (k : String × String) : Option PyVal :=
  match vals with
  | [] => Option.none
  | (k', v) :: rest => if k' = k then some v else lookupVal rest k

/-- Embedding of `DataObject.load_vr_value` (data_object.py, lines 39-69).
If the data object has no active association for the variable it raises
`ValueError` ("The VR ... is not currently associated with the data object
..."); otherwise it loads the data hash and returns the unpickled blob.
A variable id that is not a string matches no `vr_dataobjects` row, so the
same `ValueError` is raised. A missing `data_values` row makes Python index
`None` (`fetchone()[0]`), a `TypeError`. -/
def load_vr_value (st : Store) (nodeId : String) (vrId : PyVal) : Except String PyVal :=
  match vrId with
  | .str v =>
    if (nodeId, v) ∈ st.assoc then
      match lookupVal st.vals (nodeId, v) with
      | some value => .ok value
      | Option.none => .error "TypeError"
    else
      .error "ValueError: the VR is not currently associated with the data object"
  | _ => .error "ValueError: the VR is not currently associated with the data object"

/-- Embedding of the operator dispatch at the tail of
`Subset.meets_conditions` (subset.py, lines 151-190), applied to a stored
value that was found: the special null-handling branch for the membership
operators, then the `if`/`elif` chain over the remaining operators; an
unrecognized operator leaves `bool_val` at `False`. -/
def evalFoundLeaf (vrValue logic value : PyVal) : Except String Bool :=
  let isNoneV : Bool := match vrValue with | .none => true | _ => false
  let isNoneL : Bool := match value with | .none => true | _ => false
  if (pyEq logic (.str "in") || pyEq logic (.str "not in") ||
      pyEq logic (.str "contains") || pyEq logic (.str "not contains")) &&
     ((pyEq logic (.str "contains") && isNoneV) ||
      (pyEq logic (.str "not contains") && isNoneV && !isNoneL) ||
      (pyEq logic (.str "in") && isNoneL) ||
      (pyEq logic (.str "not in") && isNoneL)) then
    if pyEq logic (.str "contains") && isNoneV then .ok false
    else if pyEq logic (.str "not contains") && isNoneV && !isNoneL then .ok true
    else if pyEq logic (.str "in") && isNoneL then .ok false
    else .ok true
  else
    if pyEq logic (.str ">") then pyGt vrValue value
    else if pyEq logic (.str "<") then pyLt vrValue value
    else if pyEq logic (.str ">=") then pyGe vrValue value
    else if pyEq logic (.str "<=") then pyLe vrValue value
    else if pyEq logic (.str "==") || pyEq logic (.str "=") then .ok (pyEq vrValue value)
    else if pyEq logic (.str "!=") then .ok (!pyEq vrValue value)
    else if pyEq logic (.str "in") then pyIn vrValue value
    else if pyEq logic (.str "not in") then do
      let b ← pyIn vrValue value
      .ok (!b)
    else if pyEq logic (.str "is") then .ok (pyIs vrValue value)
    else if pyEq logic (.str "is not") then .ok (!pyIs vrValue value)
    else if pyEq logic (.str "contains") then pyIn value vrValue
    else if pyEq logic (.str "not contains") then do
      let b ← pyIn value vrValue
      .ok (!b)
    else .ok false

/-- The ancestor scan inside the leaf case of `Subset.meets_conditions`
(subset.py, lines 136-144): walk the ancestor list; load the variable on
each ancestor (an ancestor with no active association makes
`load_vr_value` raise, which propagates); skip ancestors whose loaded
value has `value[1] == False`; stop at the first ancestor that has the
attribute. Returns the found ancestor id, if any. -/
def findAnc (st : Store) (vrId : PyVal) (ancs : List String) :
    Except String (Option String) :=
  ancs.foldlM
    (fun found a =>
      match found with
      | some _ => pure found
      | Option.none => do
        let v ← load_vr_value st a vrId
        let v1 ← pySub v 1
        if pyEq v1 (.bool false) then pure Option.none else pure (some a))
    Option.none

/-- Embedding of `Subset.meets_conditions` (subset.py, lines 115-190).
The `fuel` argument bounds the recursion depth (Python's recursion is
bounded by the interpreter stack); every claim is stated with enough fuel.

* A dict with an `"and"` key iterates its children, returning `False` at
  the first false child (short-circuit); with an `"or"` key it evaluates
  the whole child list (Python builds the comprehension list before
  `any`), then takes the disjunction. A dict whose `"and"`/`"or"` value
  is not a list raises `TypeError` (iteration); a dict with neither key
  falls through to the leaf code, whose `conditions[0]` subscript raises
  `KeyError`.
* Anything else is a leaf: subscripts `[0]`, `[1]`, `[2]` extract the
  variable id, operator and literal; `load_vr_value` loads the stored
  value (raising on a missing association); `value[1] == False` triggers
  the ancestor fallback, otherwise `value[0]` is evaluated against the
  operator.

The resolution of a node class from the two-character id prefix
(`DataObject.__subclasses__` scan) is elided: nodes are addressed here
directly by id. -/
def meetsConditions (st : Store) (g : List (String × String)) :
    Nat → String → PyVal → Except String Bool
  | 0, _, _ => .error "RecursionError"
  | fuel + 1, nodeId, conditions =>
    match conditions with
    | .dict entries =>
      match lookupKey entries "and" with
      | some (.list cs) =>
        cs.foldlM
          (fun acc c =>
            if acc then meetsConditions st g fuel nodeId c else pure false)
          true
      | some _ => .error "TypeError"
      | Option.none =>
        match lookupKey entries "or" with
        | some (.list cs) => do
          let bs ← cs.mapM (fun c => meetsConditions st g fuel nodeId c)
          pure (bs.any id)
        | some _ => .error "TypeError"
        | Option.none => .error "KeyError"
    | _ => do
      let c0 ← pySub conditions 0
      let _c1 ← pySub conditions 1
      let _c2 ← pySub conditions 2
      let vrValue ← load_vr_value st nodeId c0
      let v1 ← pySub vrValue 1
      if pyEq v1 (.bool false) then do
        let found ← findAnc st c0 (pyAncestors g nodeId)
        match found with
        | some ancId => meetsConditions st g fuel ancId conditions
        | Option.none => pure false
      else do
        let v0 ← pySub vrValue 0
        evalFoundLeaf v0 _c1 _c2

/-- Embedding of `Subset.get_subset` (subset.py, lines 92-113): iterate the
nodes (the code iterates `networkx.topological_sort(G)`; only the node set
matters for membership in the result), keep each node that meets the
conditions together with all its ancestors, deduplicating against what was
already collected. The returned list is the node set of the result
subgraph. -/
def getSubset (st : Store) (g : List (String × String)) (fuel : Nat)
    (sortedNodes : List String) (conditions : PyVal) :
    Except String (List String) :=
  sortedNodes.foldlM
    (fun acc nodeId => do
      let b ← meetsConditions st g fuel nodeId conditions
      if b then
        let curr := nodeId :: pyAncestors g nodeId
        pure (acc ++ curr.filter (fun n => !(decide (n ∈ acc))))
      else
        pure acc)
    []

theorem except_ok_bind {α β : Type} (a : α) (g : α → Except String β) :
    ((Except.ok a : Except String α) >>= g) = g a := rfl

theorem except_error_bind {α β : Type} (e : String) (g : α → Except String β) :
    ((Except.error e : Except String α) >>= g) = Except.error e := rfl

theorem andFold_cons {α : Type} (f : α → Except String Bool) (c : α) (cs : List α)
    (b : Bool) :
    (c :: cs).foldlM (fun acc c => if acc then f c else pure false) b
      = (if b then f c else pure false) >>= fun b2 =>
          cs.foldlM (fun acc c => if acc then f c else pure false) b2 := by
  rw [List.foldlM_cons]

theorem andFold_false {α : Type} (f : α → Except String Bool) (cs : List α) :
    cs.foldlM (fun acc c => if acc then f c else pure false) false = .ok false := by
  induction cs with
  | nil => rfl
  | cons c cs ih =>
    rw [andFold_cons, if_neg (by simp), pure_bind]
    exact ih

theorem andFold_true_iff {α : Type} (f : α → Except String Bool) (cs : List α) :
    cs.foldlM (fun acc c => if acc then f c else pure false) true = .ok true
      ↔ ∀ c ∈ cs, f c = .ok true := by
  induction cs with
  | nil =>
    constructor
    · intro _ c hc
      cases hc
    · intro _
      rfl
  | cons c cs ih =>
    rw [andFold_cons, if_pos rfl]
    rcases hfc : f c with e | b
    · rw [except_error_bind]
      constructor
      · intro h; cases h
      · intro h
        have := h c (List.mem_cons_self c cs)
        rw [hfc] at this
        cases this
    · rw [except_ok_bind]
      cases b
      · rw [andFold_false]
        constructor
        · intro h; cases h
        · intro h
          have := h c (List.mem_cons_self c cs)
          rw [hfc] at this
          cases this
      · rw [ih]
        constructor
        · intro h x hx
          rcases List.mem_cons.mp hx with hx | hx
          · subst hx; exact hfc
          · exact h x hx
        · intro h x hx
          exact h x (List.mem_cons_of_mem c hx)

theorem andFold_shortcircuit {α : Type} (f : α → Except String Bool)
    (cs1 : List α) (c : α) (cs2 : List α)
    (hpre : ∀ c1 ∈ cs1, f c1 = .ok true) (hc : f c = .ok false) :
    (cs1 ++ c :: cs2).foldlM (fun acc c => if acc then f c else pure false) true
      = .ok false := by
  induction cs1 with
  | nil =>
    rw [List.nil_append, andFold_cons, if_pos rfl, hc, except_ok_bind]
    exact andFold_false f cs2
  | cons c1 cs1 ih =>
    rw [List.cons_append, andFold_cons, if_pos rfl, hpre c1 (List.mem_cons_self c1 cs1),
      except_ok_bind]
    exact ih (fun x hx => hpre x (List.mem_cons_of_mem c1 hx))

theorem mapM_ok_forall {α : Type} {f : α → Except String Bool} {cs : List α}
    {bs : List Bool} (h : cs.mapM f = .ok bs) :
    ∀ c ∈ cs, ∃ b, f c = .ok b := by
  induction cs generalizing bs with
  | nil => intro c hc; cases hc
  | cons c cs ih =>
    rw [List.mapM_cons] at h
    rcases hfc : f c with e | b
    · rw [hfc, except_error_bind] at h
      cases h
    · rw [hfc, except_ok_bind] at h
      rcases hrest : cs.mapM f with e2 | bs2
      · rw [hrest, except_error_bind] at h
        cases h
      · intro x hx
        rcases List.mem_cons.mp hx with hx | hx
        · exact ⟨b, hx ▸ hfc⟩
        · exact ih hrest x hx

theorem mapM_ok_of_forall {α : Type} {f : α → Except String Bool} {cs : List α}
    (h : ∀ c ∈ cs, ∃ b, f c = .ok b) :
    ∃ bs, cs.mapM f = .ok bs := by
  induction cs with
  | nil => exact ⟨[], rfl⟩
  | cons c cs ih =>
    obtain ⟨b, hb⟩ := h c (List.mem_cons_self c cs)
    obtain ⟨bs, hbs⟩ := ih (fun x hx => h x (List.mem_cons_of_mem c hx))
    refine ⟨b :: bs, ?_⟩
    rw [List.mapM_cons, hb, except_ok_bind, hbs, except_ok_bind]
    rfl

theorem mapM_any_iff {α : Type} {f : α → Except String Bool} {cs : List α}
    {bs : List Bool} (h : cs.mapM f = .ok bs) :
    bs.any id = true ↔ ∃ c ∈ cs, f c = .ok true := by
  induction cs generalizing bs with
  | nil =>
    rw [List.mapM_nil] at h
    cases h
    simp
  | cons c cs ih =>
    rw [List.mapM_cons] at h
    rcases hfc : f c with e | b
    · rw [hfc, except_error_bind] at h
      cases h
    · rw [hfc, except_ok_bind] at h
      rcases hrest : cs.mapM f with e2 | bs2
      · rw [hrest, except_error_bind] at h
        cases h
      · rw [hrest, except_ok_bind] at h
        have : bs = b :: bs2 := by
          cases h
          rfl
        subst this
        rw [List.any_cons]
        cases b
        · simp only [id, Bool.false_or]
          rw [ih hrest]
          constructor
          · rintro ⟨x, hx, hfx⟩
            exact ⟨x, List.mem_cons_of_mem c hx, hfx⟩
          · rintro ⟨x, hx, hfx⟩
            rcases List.mem_cons.mp hx with hx | hx
            · subst hx
              rw [hfx] at hfc
              cases hfc
            · exact ⟨x, hx, hfx⟩
        · simp only [id, Bool.true_or]
          constructor
          · intro _
            exact ⟨c, List.mem_cons_self c cs, hfc⟩
          · intro _
            trivial

/-- C1: the claim states that a data-object node with no active association
for the leaf's variable makes the evaluator search the node's ancestors,
re-evaluate the leaf at the first ancestor holding an active association,
and evaluate the leaf to false when no ancestor has one — in particular a
missing association never raises an error out of evaluation. The code does
the opposite: `DataObject.load_vr_value` raises `ValueError` whenever the
node has no active association, so evaluating the claim's own example (node
`TR01` with no association for `VRv1`, a single ancestor `SB01` holding
`VRv1 = 5`, leaf `[VRv1, ">", 3]`) propagates that `ValueError` instead of
reaching the ancestor fallback and returning true; the same leaf evaluated
directly at the ancestor returns true, which is the answer the claim
expects for `TR01`. -/
theorem c1_missing_association_raises :
    meetsConditions
        ⟨[("SB01", "VRv1")], [(("SB01", "VRv1"), .list [.int 5, .bool true])]⟩
        [("SB01", "TR01")] 5 "TR01" (.list [.str "VRv1", .str ">", .int 3])
      = .error "ValueError: the VR is not currently associated with the data object"
    ∧ meetsConditions
        ⟨[("SB01", "VRv1")], [(("SB01", "VRv1"), .list [.int 5, .bool true])]⟩
        [("SB01", "TR01")] 5 "SB01" (.list [.str "VRv1", .str ">", .int 3])
      = .ok true := ⟨rfl, rfl⟩

/-- C3: evaluating `{"and": [c1..cn]}` returns true iff every child
evaluates true, stopping at the first false child; evaluating
`{"or": [c1..cn]}` returns true iff some child evaluates true (the `or`
case evaluates every child first — Python builds the comprehension list
before `any` — so every child must evaluate without raising); hence an
interior node's evaluation is the boolean AND/OR of its children's
evaluations. -/
theorem c3_and_or_semantics (st : Store) (g : List (String × String))
    (fuel : Nat) (nodeId : String) (cs : List PyVal) :
    (meetsConditions st g (fuel + 1) nodeId (.dict [("and", .list cs)]) = .ok true
      ↔ ∀ c ∈ cs, meetsConditions st g fuel nodeId c = .ok true)
    ∧ (meetsConditions st g (fuel + 1) nodeId (.dict [("or", .list cs)]) = .ok true
      ↔ (∀ c ∈ cs, ∃ b, meetsConditions st g fuel nodeId c = .ok b)
        ∧ ∃ c ∈ cs, meetsConditions st g fuel nodeId c = .ok true)
    ∧ (∀ cpre c cpost, cs = cpre ++ c :: cpost →
        (∀ c1 ∈ cpre, meetsConditions st g fuel nodeId c1 = .ok true) →
        meetsConditions st g fuel nodeId c = .ok false →
        meetsConditions st g (fuel + 1) nodeId (.dict [("and", .list cs)]) = .ok false) := by
  refine ⟨?_, ?_, ?_⟩
  · show (cs.foldlM
        (fun acc c => if acc then meetsConditions st g fuel nodeId c else pure false) true
        = .ok true) ↔ _
    exact andFold_true_iff (fun c => meetsConditions st g fuel nodeId c) cs
  · show ((cs.mapM (fun c => meetsConditions st g fuel nodeId c) >>= fun bs =>
        pure (bs.any id)) = .ok true) ↔ _
    rcases hm : cs.mapM (fun c => meetsConditions st g fuel nodeId c) with e | bs
    · rw [except_error_bind]
      constructor
      · intro h; cases h
      · rintro ⟨hall, -⟩
        obtain ⟨bs, hbs⟩ := mapM_ok_of_forall hall
        rw [hm] at hbs
        cases hbs
    · rw [except_ok_bind]
      constructor
      · intro h
        have hany : bs.any id = true := by
          have hpb : (pure (bs.any id) : Except String Bool) = .ok (bs.any id) := rfl
          rw [hpb] at h
          injection h
        exact ⟨mapM_ok_forall hm, (mapM_any_iff hm).mp hany⟩
      · rintro ⟨-, hex⟩
        have hany := (mapM_any_iff hm).mpr hex
        show (pure (bs.any id) : Except String Bool) = .ok true
        rw [hany]
        rfl
  · intro cpre c cpost hcs hpre hc
    subst hcs
    show (cpre ++ c :: cpost).foldlM
        (fun acc c => if acc then meetsConditions st g fuel nodeId c else pure false) true
        = .ok false
    exact andFold_shortcircuit (fun c => meetsConditions st g fuel nodeId c) cpre c cpost hpre hc

/-- C3 witness: the and/or semantics applied at a concrete store. The
`and` list is [true-leaf, false-leaf, erroring-leaf]: evaluation
short-circuits at the false leaf and returns false without touching the
erroring leaf; the `or` list [false-leaf, true-leaf] returns true. -/
theorem c3_and_or_semantics_witness :
    meetsConditions ⟨[("N1", "VRa")], [(("N1", "VRa"), .list [.int 7, .bool true])]⟩ [] 2 "N1"
      (.dict [("and", .list [.list [.str "VRa", .str "==", .int 7],
        .list [.str "VRa", .str "==", .int 8],
        .list [.str "VRb", .str "==", .int 1]])]) = .ok false
    ∧ meetsConditions ⟨[("N1", "VRa")], [(("N1", "VRa"), .list [.int 7, .bool true])]⟩ [] 2 "N1"
      (.dict [("or", .list [.list [.str "VRa", .str "==", .int 8],
        .list [.str "VRa", .str "==", .int 7]])]) = .ok true := by
  constructor
  · exact (c3_and_or_semantics
        ⟨[("N1", "VRa")], [(("N1", "VRa"), .list [.int 7, .bool true])]⟩ [] 1 "N1"
        [.list [.str "VRa", .str "==", .int 7], .list [.str "VRa", .str "==", .int 8],
          .list [.str "VRb", .str "==", .int 1]]).2.2
      [.list [.str "VRa", .str "==", .int 7]]
      (.list [.str "VRa", .str "==", .int 8])
      [.list [.str "VRb", .str "==", .int 1]]
      rfl
      (by
        intro c1 h1
        rw [List.mem_singleton] at h1
        subst h1
        rfl)
      rfl
  · exact (c3_and_or_semantics
        ⟨[("N1", "VRa")], [(("N1", "VRa"), .list [.int 7, .bool true])]⟩ [] 1 "N1"
        [.list [.str "VRa", .str "==", .int 8], .list [.str "VRa", .str "==", .int 7]]).2.1.mpr
      ⟨by
        intro c hc
        rcases List.mem_cons.mp hc with hc | hc
        · subst hc; exact ⟨false, rfl⟩
        · rw [List.mem_singleton] at hc
          subst hc
          exact ⟨true, rfl⟩,
        ⟨.list [.str "VRa", .str "==", .int 7],
          List.mem_cons_of_mem _ (List.mem_cons_self _ _), rfl⟩⟩

/-- C4 counterexample: the claim says a found "not contains" leaf evaluates
true *only* when the stored value is null and the literal is non-null. The
code returns true for the non-null stored value `["a"]` with literal `"z"`
(plain `not value in vr_value`), refuting the "only when" direction. -/
theorem c4_not_contains_counterexample :
    evalFoundLeaf (.list [.str "a"]) (.str "not contains") (.str "z") = .ok true
    ∧ PyVal.list [.str "a"] ≠ PyVal.none := by
  constructor
  · rfl
  · intro h
    exact PyVal.noConfusion h

/-- C4 (amended): for a found membership-operator leaf, `contains`
evaluates false when the stored value is null; `not contains` evaluates
true when the stored value is null and the literal is non-null; `in`
evaluates false and `not in` evaluates true whenever the literal is null,
regardless of the stored value. -/
theorem c4_membership_null_rules (vrValue value : PyVal) :
    (vrValue = .none → evalFoundLeaf vrValue (.str "contains") value = .ok false)
    ∧ (vrValue = .none → value ≠ .none →
        evalFoundLeaf vrValue (.str "not contains") value = .ok true)
    ∧ (value = .none → evalFoundLeaf vrValue (.str "in") value = .ok false)
    ∧ (value = .none → evalFoundLeaf vrValue (.str "not in") value = .ok true) := by
  refine ⟨?_, ?_, ?_, ?_⟩
  · intro h
    subst h
    rfl
  · intro h hv
    subst h
    cases value with
    | none => exact absurd rfl hv
    | bool b => rfl
    | int n => rfl
    | str s => rfl
    | list xs => rfl
    | dict es => rfl
    | obj t => rfl
  · intro h
    subst h
    rfl
  · intro h
    subst h
    rfl

/-- C4 witness: the amended null-handling rules at concrete inputs. -/
theorem c4_membership_null_rules_witness :
    evalFoundLeaf .none (.str "contains") (.int 3) = .ok false
    ∧ evalFoundLeaf .none (.str "not contains") (.int 3) = .ok true
    ∧ evalFoundLeaf (.list [.int 1]) (.str "in") .none = .ok false
    ∧ evalFoundLeaf (.list [.int 1]) (.str "not in") .none = .ok true :=
  ⟨(c4_membership_null_rules .none (.int 3)).1 rfl,
    (c4_membership_null_rules .none (.int 3)).2.1 rfl (fun h => PyVal.noConfusion h),
    (c4_membership_null_rules (.list [.int 1]) .none).2.2.1 rfl,
    (c4_membership_null_rules (.list [.int 1]) .none).2.2.2 rfl⟩

theorem getSubset_invariant (st : Store) (g : List (String × String)) (fuel : Nat)
    (conds : PyVal) :
    ∀ (nodes : List String) (acc res : List String),
      nodes.foldlM
        (fun acc nodeId => do
          let b ← meetsConditions st g fuel nodeId conds
          if b then
            pure (acc ++ (nodeId :: pyAncestors g nodeId).filter (fun n => !(decide (n ∈ acc))))
          else
            pure acc)
        acc = .ok res →
      ∀ n, n ∈ res ↔ n ∈ acc ∨ ∃ m ∈ nodes,
        meetsConditions st g fuel m conds = .ok true ∧ (n = m ∨ n ∈ pyAncestors g m) := by
  intro nodes
  induction nodes with
  | nil =>
    intro acc res h n
    have hres : acc = res := by
      injection h
    subst hres
    simp
  | cons m nodes ih =>
    intro acc res h n
    rw [List.foldlM_cons] at h
    rcases hb : meetsConditions st g fuel m conds with e | b
    · rw [show ((do
          let b ← meetsConditions st g fuel m conds
          if b then
            pure (acc ++ (m :: pyAncestors g m).filter (fun n => !(decide (n ∈ acc))))
          else
            pure acc) : Except String (List String))
          = meetsConditions st g fuel m conds >>= (fun b =>
            if b then
              pure (acc ++ (m :: pyAncestors g m).filter (fun n => !(decide (n ∈ acc))))
            else
              pure acc) from rfl, hb, except_error_bind, except_error_bind] at h
      cases h
    · rw [show ((do
          let b ← meetsConditions st g fuel m conds
          if b then
            pure (acc ++ (m :: pyAncestors g m).filter (fun n => !(decide (n ∈ acc))))
          else
            pure acc) : Except String (List String))
          = meetsConditions st g fuel m conds >>= (fun b =>
            if b then
              pure (acc ++ (m :: pyAncestors g m).filter (fun n => !(decide (n ∈ acc))))
            else
              pure acc) from rfl, hb, except_ok_bind] at h
      cases b
      · rw [if_neg (by simp), pure_bind] at h
        rw [ih acc res h n]
        constructor
        · rintro (hacc | ⟨m2, hm2, ht, hor⟩)
          · exact Or.inl hacc
          · exact Or.inr ⟨m2, List.mem_cons_of_mem m hm2, ht, hor⟩
        · rintro (hacc | ⟨m2, hm2, ht, hor⟩)
          · exact Or.inl hacc
          · rcases List.mem_cons.mp hm2 with hm2 | hm2
            · subst hm2
              rw [hb] at ht
              cases ht
            · exact Or.inr ⟨m2, hm2, ht, hor⟩
      · rw [if_pos rfl, pure_bind] at h
        rw [ih _ res h n]
        have hacc2 : n ∈ acc ++ (m :: pyAncestors g m).filter (fun n => !(decide (n ∈ acc)))
            ↔ n ∈ acc ∨ n ∈ m :: pyAncestors g m := by
          rw [List.mem_append, List.mem_filter]
          constructor
          · rintro (h1 | ⟨h1, -⟩)
            · exact Or.inl h1
            · exact Or.inr h1
          · rintro (h1 | h1)
            · exact Or.inl h1
            · by_cases hn : n ∈ acc
              · exact Or.inl hn
              · exact Or.inr ⟨h1, by simpa using hn⟩
        rw [hacc2]
        constructor
        · rintro ((hacc | hmem) | ⟨m2, hm2, ht, hor⟩)
          · exact Or.inl hacc
          · refine Or.inr ⟨m, List.mem_cons_self m nodes, hb, ?_⟩
            rcases List.mem_cons.mp hmem with hmem | hmem
            · exact Or.inl hmem
            · exact Or.inr hmem
          · exact Or.inr ⟨m2, List.mem_cons_of_mem m hm2, ht, hor⟩
        · rintro (hacc | ⟨m2, hm2, ht, hor⟩)
          · exact Or.inl (Or.inl hacc)
          · rcases List.mem_cons.mp hm2 with hm2 | hm2
            · subst hm2
              left
              right
              rcases hor with hor | hor
              · exact hor ▸ List.mem_cons_self _ _
              · exact List.mem_cons_of_mem _ hor
            · exact Or.inr ⟨m2, hm2, ht, hor⟩

/-- C5: when subset evaluation succeeds, the returned node set contains a
node iff the node satisfies the condition tree or is an ancestor (in the
address graph) of a node that satisfies it; consequently the returned node
set is closed under taking ancestors. -/
theorem c5_get_subset_membership (st : Store) (g : List (String × String)) (fuel : Nat)
    (nodes : List String) (conds : PyVal) (res : List String)
    (h : getSubset st g fuel nodes conds = .ok res) :
    (∀ n, n ∈ res ↔ ∃ m ∈ nodes,
      meetsConditions st g fuel m conds = .ok true ∧ (n = m ∨ n ∈ pyAncestors g m))
    ∧ (∀ n ∈ res, ∀ a ∈ pyAncestors g n, a ∈ res) := by
  have hmem := getSubset_invariant st g fuel conds nodes [] res h
  have hiff : ∀ n, n ∈ res ↔ ∃ m ∈ nodes,
      meetsConditions st g fuel m conds = .ok true ∧ (n = m ∨ n ∈ pyAncestors g m) := by
    intro n
    rw [hmem n]
    constructor
    · rintro (h1 | h1)
      · cases h1
      · exact h1
    · exact Or.inr
  refine ⟨hiff, ?_⟩
  intro n hn a ha
  obtain ⟨m, hm, ht, hor⟩ := (hiff n).mp hn
  have hra := mem_pyAncestors.mp ha
  rcases hor with hor | hor
  · exact (hiff a).mpr ⟨m, hm, ht, Or.inr (hor ▸ ha)⟩
  · have hrm := mem_pyAncestors.mp hor
    have hram : Reaches g a m := hra.1.trans hrm.1
    by_cases ham : a = m
    · exact (hiff a).mpr ⟨m, hm, ht, Or.inl ham⟩
    · exact (hiff a).mpr ⟨m, hm, ht, Or.inr (mem_pyAncestors.mpr ⟨hram, ham⟩)⟩

/-- C5 witness: a two-node dataset graph `DS01 → SB01` under the trivially
true condition tree `{"and": []}`; the returned set is both nodes, and the
membership characterization and ancestor-closure hold at `SB01`,
whose ancestor `DS01` is in the result. -/
theorem c5_get_subset_membership_witness :
    ("SB01" ∈ ["DS01", "SB01"] ↔ ∃ m ∈ ["DS01", "SB01"],
      meetsConditions ⟨[], []⟩ [("DS01", "SB01")] 1 m (.dict [("and", .list [])]) = .ok true
      ∧ ("SB01" = m ∨ "SB01" ∈ pyAncestors [("DS01", "SB01")] m))
    ∧ ("DS01" ∈ ["DS01", "SB01"]) :=
  have h := c5_get_subset_membership ⟨[], []⟩ [("DS01", "SB01")] 1 ["DS01", "SB01"]
    (.dict [("and", .list [])]) ["DS01", "SB01"] rfl
  ⟨h.1 "SB01",
    h.2 "SB01" (List.mem_cons_of_mem _ (List.mem_cons_self _ _)) "DS01" (by
      rw [mem_pyAncestors]
      exact ⟨Reaches.single (List.mem_singleton_self _), by decide⟩)⟩

/-- Modelled from the spec: `IDCreator.is_ro_id` (idcreator.py) is not
under src/. Per §6 of the specification, identifiers are a two-character
uppercase type prefix followed by an opaque (nonempty) suffix; values that
are not strings are not well-formed ids. -/
def isRoId : PyVal → Bool
  | .str s => decide (2 < s.length) && (s.take 2).toList.all Char.isUpper
  | _ => false

/-- Modelled from the spec: `ResearchObjectHandler.object_exists`
(research_object_handler.py) is not under src/. It checks the store for an
existing object row with the given id; the store's ids are supplied here as
a list. -/
def objectExists (existing : List String) : PyVal → Bool
  | .str s => decide (s ∈ existing)
  | _ => false

/-- The `logic_options` tuple of subset.py (line 24):
numeric options followed by the any-type options. -/
def logicOptionStrs : List String :=
  [">", "<", ">=", "<=", "==", "=", "!=", "in", "not in", "is", "is not",
    "contains", "not contains"]

/-- The `numeric_logic_options` tuple of subset.py (line 22). -/
def numericLogicStrs : List String := [">", "<", ">=", "<="]

/-- Python `key in some_dict` on our string-keyed dictionary entries. -/
def hasKey (entries : List (String × PyVal)) (k : String) : Bool :=
  entries.any (fun e => e.1 == k)

mutual
/-- Embedding of `Subset.validate_conditions` (subset.py, lines 40-90).
A tree equal to the configured default returns without validation. A list
is a leaf: it must have exactly 3 elements, a well-formed id of an
existing object, a known operator, an int literal when the operator is
numeric, and a JSON-serializable literal. Anything that is not a list must
be a dict with exactly one of the keys `"and"`/`"or"`, every key one of
those two, every value a list, and the children are validated recursively
(so a child equal to the default is skipped by the same first check). -/
def validateConditions (existing : List String) (default : PyVal) (conditions : PyVal) :
    Except String Unit :=
  if pyEq conditions default then .ok ()
  else
    match conditions with
    | .list elems =>
      match elems with
      | [e0, e1, e2] =>
        if !isRoId e0 then .error "Variable ID must be a valid Variable ID."
        else if !objectExists existing e0 then .error "Variable must be pre-existing."
        else if !(logicOptionStrs.any (fun s => pyEq e1 (.str s))) then
          .error "Invalid logic."
        else if (numericLogicStrs.any (fun s => pyEq e1 (.str s))) && !isInstInt e2 then
          .error "Numeric logical symbols must have an int value."
        else if !jsonSerializable e2 then .error "Value must be JSON serializable."
        else .ok ()
      | _ => .error "Condition must be a list of length 3."
    | .dict entries =>
      if !hasKey entries "and" && !hasKey entries "or" then
        .error "Condition must contain an 'and' or 'or' key."
      else if hasKey entries "and" && hasKey entries "or" then
        .error "Condition cannot contain both 'and' and 'or' keys."
      else validateEntries existing default entries
    | _ => .error "Condition must be a dict."

/-- The `for key, value in conditions.items()` loop of
`Subset.validate_conditions`: reject keys other than `"and"`/`"or"` and
non-list values, then validate every child of the value list. -/
def validateEntries (existing : List String) (default : PyVal) :
    List (String × PyVal) → Except String Unit
  | [] => .ok ()
  | (k, v) :: rest =>
    if k != "and" && k != "or" then .error "Invalid key in condition."
    else
      match v with
      | .list cs => do
        validateCondList existing default cs
        validateEntries existing default rest
      | _ => .error "Value must be a list."

/-- The child-list comprehension of `Subset.validate_conditions`: validate
each child in order, stopping at the first error. -/
def validateCondList (existing : List String) (default : PyVal) :
    List PyVal → Except String Unit
  | [] => .ok ()
  | c :: rest => do
    validateConditions existing default c
    validateCondList existing default rest
end

mutual
/-- The claim's well-formedness enumeration, read off the claim verbatim
(no exemption for subtrees equal to the default): a leaf is a list of
exactly 3 elements whose first element is a well-formed id of an existing
object, whose operator is known, whose literal is an int when the operator
is numeric, and whose literal is serializable; an interior node is a dict
with exactly one of the keys `"and"`/`"or"`, all keys among those two, list
values, and well-formed children; anything else is malformed. -/
def claimWellFormed (existing : List String) : PyVal → Bool
  | .list elems =>
    match elems with
    | [e0, e1, e2] =>
      isRoId e0 && objectExists existing e0 &&
      logicOptionStrs.any (fun s => pyEq e1 (.str s)) &&
      (!(numericLogicStrs.any (fun s => pyEq e1 (.str s))) || isInstInt e2) &&
      jsonSerializable e2
    | _ => false
  | .dict entries =>
    ((hasKey entries "and") != (hasKey entries "or")) && claimWFEntries existing entries
  | _ => false

/-- Entry check for `claimWellFormed`. -/
def claimWFEntries (existing : List String) : List (String × PyVal) → Bool
  | [] => true
  | (k, v) :: rest =>
    (k == "and" || k == "or") &&
    (match v with
      | .list cs => claimWFList existing cs
      | _ => false) &&
    claimWFEntries existing rest

/-- Child-list check for `claimWellFormed`. -/
def claimWFList (existing : List String) : List PyVal → Bool
  | [] => true
  | c :: rest => claimWellFormed existing c && claimWFList existing rest
end

mutual
/-- Well-formedness as the amended claim states it: identical to
`claimWellFormed`, except that a subtree equal to the configured default is
exempt from validation (treated as well-formed), matching the code's
first-line default check which also fires on recursive calls. -/
def wfExceptDefault (existing : List String) (default : PyVal) (c : PyVal) : Bool :=
  if pyEq c default then true
  else
    match c with
      | .list elems =>
        match elems with
        | [e0, e1, e2] =>
          isRoId e0 && objectExists existing e0 &&
          logicOptionStrs.any (fun s => pyEq e1 (.str s)) &&
          (!(numericLogicStrs.any (fun s => pyEq e1 (.str s))) || isInstInt e2) &&
          jsonSerializable e2
        | _ => false
      | .dict entries =>
        ((hasKey entries "and") != (hasKey entries "or")) && wfdEntries existing default entries
      | _ => false

/-- Entry check for `wfExceptDefault`. -/
def wfdEntries (existing : List String) (default : PyVal) : List (String × PyVal) → Bool
  | [] => true
  | (k, v) :: rest =>
    (k == "and" || k == "or") &&
    (match v with
      | .list cs => wfdList existing default cs
      | _ => false) &&
    wfdEntries existing default rest

/-- Child-list check for `wfExceptDefault`. -/
def wfdList (existing : List String) (default : PyVal) : List PyVal → Bool
  | [] => true
  | c :: rest => wfExceptDefault existing default c && wfdList existing default rest
end

theorem except_bind_unit_ok_iff (a b : Except String Unit) :
    (a >>= fun _ => b) = .ok () ↔ a = .ok () ∧ b = .ok () := by
  rcases a with e | u
  · rw [except_error_bind]
    constructor
    · intro h; cases h
    · rintro ⟨h, -⟩; cases h
  · cases u
    rw [except_ok_bind]
    constructor
    · intro h; exact ⟨rfl, h⟩
    · rintro ⟨-, h⟩; exact h

theorem validate_iff_wfd (existing : List String) (default : PyVal) :
    ∀ N : Nat,
      (∀ c : PyVal, sizeOf c ≤ N →
        (validateConditions existing default c = .ok () ↔
          wfExceptDefault existing default c = true))
      ∧ (∀ es : List (String × PyVal), sizeOf es ≤ N →
        (validateEntries existing default es = .ok () ↔
          wfdEntries existing default es = true))
      ∧ (∀ cs : List PyVal, sizeOf cs ≤ N →
        (validateCondList existing default cs = .ok () ↔
          wfdList existing default cs = true)) := by
  intro N
  induction N using Nat.strong_induction_on with
  | _ N ih =>
    refine ⟨?_, ?_, ?_⟩
    · intro c hc
      by_cases hdef : pyEq c default = true
      · rw [validateConditions.eq_def, wfExceptDefault.eq_def]
        simp [hdef]
      · rw [Bool.not_eq_true] at hdef
        cases c with
        | list elems =>
          rcases elems with _ | ⟨e0, _ | ⟨e1, _ | ⟨e2, _ | ⟨e3, rest⟩⟩⟩⟩
          · simp [validateConditions, wfExceptDefault, hdef]
          · simp [validateConditions, wfExceptDefault, hdef]
          · simp [validateConditions, wfExceptDefault, hdef]
          · simp only [validateConditions, wfExceptDefault, hdef, Bool.false_eq_true,
              if_false]
            split_ifs with h1 h2 h3 h4 h5 <;> simp_all
            by_cases h6 : isInstInt e2 = true
            · exact Or.inr h6
            · refine Or.inl (fun x hx => ?_)
              by_contra hpe
              rw [Bool.not_eq_false] at hpe
              exact h6 (h4 x hx hpe)
          · simp [validateConditions, wfExceptDefault, hdef]
        | dict entries =>
          have hsz : sizeOf entries < N := by
            have : sizeOf (PyVal.dict entries) = 1 + sizeOf entries := by
              simp
            omega
          have hent := (ih (sizeOf entries) hsz).2.1 entries (le_refl _)
          simp only [validateConditions, wfExceptDefault, hdef, Bool.false_eq_true, if_false]
          rcases ha : hasKey entries "and" <;> rcases hb : hasKey entries "or" <;>
            simp_all
        | none =>
          simp [validateConditions, wfExceptDefault, hdef]
        | bool b =>
          simp [validateConditions, wfExceptDefault, hdef]
        | int n =>
          simp [validateConditions, wfExceptDefault, hdef]
        | str s =>
          simp [validateConditions, wfExceptDefault, hdef]
        | obj t =>
          simp [validateConditions, wfExceptDefault, hdef]
    · intro es hes
      cases es with
      | nil => simp [validateEntries, wfdEntries]
      | cons kv rest =>
        rcases kv with ⟨k, v⟩
        have hszrest : sizeOf rest < N := by
          have : sizeOf ((k, v) :: rest) = 1 + sizeOf (k, v) + sizeOf rest := by simp
          have hkv : sizeOf (k, v) = 1 + sizeOf k + sizeOf v := by simp
          have hk : 0 ≤ sizeOf k := Nat.zero_le _
          omega
        have hrest := (ih (sizeOf rest) hszrest).2.1 rest (le_refl _)
        by_cases hkey : (k != "and" && k != "or") = true
        · obtain ⟨h1, h2⟩ := Bool.and_eq_true_iff.mp hkey
          have hA : (k == "and") = false := by
            rw [beq_eq_false_iff_ne]
            exact bne_iff_ne.mp h1
          have hO : (k == "or") = false := by
            rw [beq_eq_false_iff_ne]
            exact bne_iff_ne.mp h2
          constructor
          · intro h
            rw [validateEntries.eq_def] at h
            simp only [] at h
            rw [if_pos hkey] at h
            cases h
          · intro h
            rw [wfdEntries.eq_def] at h
            simp only [hA, hO] at h
            simp at h
        · rw [Bool.not_eq_true] at hkey
          cases v with
          | list cs =>
            have hszcs : sizeOf cs < N := by
              have h1 : sizeOf ((k, PyVal.list cs) :: rest)
                  = 1 + sizeOf (k, PyVal.list cs) + sizeOf rest := by simp
              have h2 : sizeOf (k, PyVal.list cs) = 1 + sizeOf k + sizeOf (PyVal.list cs) := by
                simp
              have h3 : sizeOf (PyVal.list cs) = 1 + sizeOf cs := by simp
              omega
            have hcs := (ih (sizeOf cs) hszcs).2.2 cs (le_refl _)
            have hkey2 : (k == "and" || k == "or") = true := by
              rcases Bool.and_eq_false_iff.mp hkey with h | h <;> simp_all
            simp only [validateEntries, wfdEntries, hkey, Bool.false_eq_true, if_false,
              hkey2, Bool.true_and]
            rw [except_bind_unit_ok_iff, hcs, hrest, Bool.and_eq_true]
          | none => simp [validateEntries, wfdEntries, hkey]
          | bool b => simp [validateEntries, wfdEntries, hkey]
          | int n => simp [validateEntries, wfdEntries, hkey]
          | str s => simp [validateEntries, wfdEntries, hkey]
          | dict es2 => simp [validateEntries, wfdEntries, hkey]
          | obj t => simp [validateEntries, wfdEntries, hkey]
    · intro cs hcs
      cases cs with
      | nil => simp [validateCondList, wfdList]
      | cons c rest =>
        have hszc : sizeOf c < N := by
          have : sizeOf (c :: rest) = 1 + sizeOf c + sizeOf rest := by simp
          omega
        have hszrest : sizeOf rest < N := by
          have : sizeOf (c :: rest) = 1 + sizeOf c + sizeOf rest := by simp
          omega
        have hc := (ih (sizeOf c) hszc).1 c (le_refl _)
        have hrest := (ih (sizeOf rest) hszrest).2.2 rest (le_refl _)
        simp only [validateCondList, wfdList]
        rw [except_bind_unit_ok_iff, hc, hrest, Bool.and_eq_true]

/-- C6 counterexample: the claim says validation errors exactly on
malformed trees (other than the configured default). With the configured
default `{}` (subset.py line 18), the tree `{"and": [{}]}` is **not** the
default and is malformed per the claim's enumeration (its child `{}` is an
interior node with neither `"and"` nor `"or"`), yet validation accepts it:
the recursive call receives the child `{}`, which equals the default and is
skipped by the first check. -/
theorem c6_default_subtree_counterexample :
    validateConditions [] (.dict []) (.dict [("and", .list [.dict []])]) = .ok ()
    ∧ claimWellFormed [] (.dict [("and", .list [.dict []])]) = false
    ∧ pyEq (.dict [("and", .list [.dict []])]) (.dict []) = false := ⟨rfl, rfl, rfl⟩

/-- C6 (amended): for every condition tree other than the configured
default, validation succeeds exactly when the tree is well-formed — a leaf
is a list of exactly 3 elements with a well-formed id of an existing
object, a known operator, an int literal for numeric operators and a
serializable literal; an interior node is a dict with exactly one of
`"and"`/`"or"` and list values, recursively well-formed children — where
subtrees equal to the configured default are exempt from validation
(treated as well-formed); it raises an error exactly otherwise. -/
theorem c6_validate_conditions (existing : List String) (default conditions : PyVal)
    (hne : pyEq conditions default = false) :
    (validateConditions existing default conditions = .ok ()
      ↔ wfExceptDefault existing default conditions = true)
    ∧ ((∃ msg, validateConditions existing default conditions = .error msg)
      ↔ wfExceptDefault existing default conditions = false) := by
  have hiff := (validate_iff_wfd existing default (sizeOf conditions)).1 conditions (le_refl _)
  refine ⟨hiff, ?_⟩
  constructor
  · rintro ⟨msg, hmsg⟩
    rw [Bool.eq_false_iff]
    intro hwf
    rw [← hiff] at hwf
    rw [hmsg] at hwf
    cases hwf
  · intro hwf
    rcases hv : validateConditions existing default conditions with msg | u
    · exact ⟨msg, rfl⟩
    · cases u
      rw [hiff.mp hv] at hwf
      cases hwf

/-- C6 witness: a well-formed leaf over the default `{}` validates, and a
malformed non-default tree is rejected with an error. -/
theorem c6_validate_conditions_witness :
    pyEq (.list [.str "VRabc", .str ">", .int 4]) (.dict []) = false
    ∧ (validateConditions ["VRabc"] (.dict []) (.list [.str "VRabc", .str ">", .int 4])
        = .ok ()
      ↔ wfExceptDefault ["VRabc"] (.dict []) (.list [.str "VRabc", .str ">", .int 4]) = true)
    ∧ ((∃ msg, validateConditions ["VRabc"] (.dict []) (.int 7) = .error msg)
      ↔ wfExceptDefault ["VRabc"] (.dict []) (.int 7) = false) :=
  ⟨rfl,
    (c6_validate_conditions ["VRabc"] (.dict []) (.list [.str "VRabc", .str ">", .int 4])
      rfl).1,
    (c6_validate_conditions ["VRabc"] (.dict []) (.int 7) rfl).2⟩

/-- The ResearchObject classes a schema element can name: the kinds that
the schema validation in dataset.py distinguishes (`Dataset`, `User`,
`Variable`), plus the other data-object kinds (Subject, Trial, Phase, ...)
collapsed into tagged values. -/
inductive ROClass where
  | dataset
  | user
  | variable
  | otherKind (tag : Nat)
deriving DecidableEq

/-- A Python value appearing in a schema list: either a class (a Python
`type`, which `isinstance(x, type)` accepts) or a non-type value with an
opaque tag. -/
inductive SchemaElem where
  | cls (c : ROClass)
  | nonType (tag : Nat)
deriving DecidableEq

/-- Embedding of `Dataset.validate_schema` (dataset.py, lines 99-116).
The argument is already a Python list (a non-list raises before the cases
modelled here). The empty schema is accepted (schema reset); a length-1
schema is rejected; all elements must be types; the `User` and `Variable`
classes must not appear; the first element must be `Dataset`. The checks
run in the code's order. The unreachable `Option.none` head branch (the
schema is nonempty there) returns `ok`. -/
def validate_schema (schema : List SchemaElem) : Except String Unit :=
  if schema.length = 0 then .ok ()
  else if schema.length = 1 then
    .error "At least two elements required for the schema! Dataset is always first + one more"
  else if schema.any (fun x => match x with | .cls _ => false | .nonType _ => true) then
    .error "Schema must be provided as a list of ResearchObject types!"
  else if SchemaElem.cls ROClass.user ∈ schema then
    .error "Do not include the User object in the schema!"
  else if SchemaElem.cls ROClass.variable ∈ schema then
    .error "Do not include the Variable object in the schema!"
  else
    match schema.head? with
    | some x =>
      if x = SchemaElem.cls ROClass.dataset then .ok ()
      else .error "Dataset must be the first element in the list!"
    | Option.none => .ok ()

/-- `True` when schema validation raised. -/
def schemaIsError : Except String Unit → Bool
  | .error _ => true
  | .ok _ => false

/-- C7: schema validation accepts the empty list (schema reset); it raises
an error for every schema of length 1, for every nonempty schema whose
first element is not the Dataset kind, and for every schema containing the
User kind or the Variable kind. -/
theorem c7_validate_schema (schema : List SchemaElem) :
    validate_schema [] = .ok ()
    ∧ (schema.length = 1 → schemaIsError (validate_schema schema) = true)
    ∧ (schema ≠ [] → schema.head? ≠ some (SchemaElem.cls ROClass.dataset) →
        schemaIsError (validate_schema schema) = true)
    ∧ (SchemaElem.cls ROClass.user ∈ schema → schemaIsError (validate_schema schema) = true)
    ∧ (SchemaElem.cls ROClass.variable ∈ schema →
        schemaIsError (validate_schema schema) = true) := by
  have step : ∀ s : List SchemaElem, s.length ≠ 0 → s.length ≠ 1 →
      ((s.any fun x => match x with | SchemaElem.cls _ => false | .nonType _ => true)
        = true → schemaIsError (validate_schema s) = true)
      ∧ (SchemaElem.cls ROClass.user ∈ s → schemaIsError (validate_schema s) = true)
      ∧ (SchemaElem.cls ROClass.variable ∈ s → schemaIsError (validate_schema s) = true)
      ∧ (∀ x, s.head? = some x → x ≠ SchemaElem.cls ROClass.dataset →
          schemaIsError (validate_schema s) = true) := by
    intro s h0 h1
    unfold validate_schema
    rw [if_neg h0, if_neg h1]
    by_cases h2 : (s.any fun x => match x with
        | SchemaElem.cls _ => false | .nonType _ => true) = true
    · rw [if_pos h2]
      exact ⟨fun _ => rfl, fun _ => rfl, fun _ => rfl, fun _ _ _ => rfl⟩
    · rw [if_neg h2]
      refine ⟨fun hc => absurd hc h2, ?_⟩
      by_cases h3 : SchemaElem.cls ROClass.user ∈ s
      · rw [if_pos h3]
        exact ⟨fun _ => rfl, fun _ => rfl, fun _ _ _ => rfl⟩
      · rw [if_neg h3]
        refine ⟨fun hc => absurd hc h3, ?_⟩
        by_cases h4 : SchemaElem.cls ROClass.variable ∈ s
        · rw [if_pos h4]
          exact ⟨fun _ => rfl, fun _ _ _ => rfl⟩
        · rw [if_neg h4]
          refine ⟨fun hc => absurd hc h4, ?_⟩
          intro x hx hxne
          rw [hx]
          show schemaIsError (if x = SchemaElem.cls ROClass.dataset then Except.ok ()
            else Except.error "Dataset must be the first element in the list!") = true
          rw [if_neg hxne]
          rfl
  refine ⟨rfl, ?_, ?_, ?_, ?_⟩
  · intro h1
    unfold validate_schema
    rw [if_neg (by omega), if_pos h1]
    rfl
  · intro hne hhead
    have h0 : schema.length ≠ 0 := by simpa [List.length_eq_zero] using hne
    by_cases h1 : schema.length = 1
    · unfold validate_schema
      rw [if_neg h0, if_pos h1]
      rfl
    · rcases hh : schema.head? with _ | x
      · rw [List.head?_eq_none_iff] at hh
        exact absurd hh hne
      · refine (step schema h0 h1).2.2.2 x hh ?_
        intro heq
        rw [hh, heq] at hhead
        exact hhead rfl
  · intro hu
    have h0 : schema.length ≠ 0 := by
      intro hc
      rw [List.length_eq_zero] at hc
      subst hc
      cases hu
    by_cases h1 : schema.length = 1
    · unfold validate_schema
      rw [if_neg h0, if_pos h1]
      rfl
    · exact (step schema h0 h1).2.1 hu
  · intro hv
    have h0 : schema.length ≠ 0 := by
      intro hc
      rw [List.length_eq_zero] at hc
      subst hc
      cases hv
    by_cases h1 : schema.length = 1
    · unfold validate_schema
      rw [if_neg h0, if_pos h1]
      rfl
    · exact (step schema h0 h1).2.2.1 hv

/-- C7 witness: the four rejection rules and the acceptance of `[]` at
concrete schemas. -/
theorem c7_validate_schema_witness :
    validate_schema [] = .ok ()
    ∧ schemaIsError (validate_schema [SchemaElem.cls (ROClass.otherKind 0)]) = true
    ∧ schemaIsError (validate_schema
        [SchemaElem.cls (ROClass.otherKind 0), SchemaElem.cls ROClass.dataset]) = true
    ∧ schemaIsError (validate_schema
        [SchemaElem.cls ROClass.dataset, SchemaElem.cls ROClass.user]) = true
    ∧ schemaIsError (validate_schema
        [SchemaElem.cls ROClass.dataset, SchemaElem.cls ROClass.variable]) = true :=
  ⟨(c7_validate_schema []).1,
    (c7_validate_schema [SchemaElem.cls (ROClass.otherKind 0)]).2.1 rfl,
    (c7_validate_schema
        [SchemaElem.cls (ROClass.otherKind 0), SchemaElem.cls ROClass.dataset]).2.2.1
      (by intro h; cases h) (by intro h; cases h),
    (c7_validate_schema [SchemaElem.cls ROClass.dataset, SchemaElem.cls ROClass.user]).2.2.2.1
      (List.mem_cons_of_mem _ (List.mem_cons_self _ _)),
    (c7_validate_schema
        [SchemaElem.cls ROClass.dataset, SchemaElem.cls ROClass.variable]).2.2.2.2
      (List.mem_cons_of_mem _ (List.mem_cons_self _ _))⟩

/-- An `Input`/`Output` record (`puts[0]` of an Inlet/Outlet): the bound
variable id (`vr`, `None` when unbound) and the owning step identity
(`pr`). Python compares these with `==`, which for the Variable/Process
objects involved is identity by id; ids are used here directly. -/
structure PutRec where
  vr : Option String
  pr : Option String
deriving DecidableEq

/-- An Inlet with its list of puts (`inlet.puts[0]` is accessed). -/
structure InletRec where
  id : String
  puts : List PutRec
deriving DecidableEq

/-- An Outlet with its list of puts (`outlet.puts[0]` is accessed). -/
structure OutletRec where
  id : String
  puts : List PutRec
deriving DecidableEq

/-- A Process object as `make_all_edges` sees it: its id, its inputs
(`ro.inputs.values()`) and outputs (`pr.outputs.values()`). -/
structure ProcObj where
  id : String
  inputs : List InletRec
  outputs : List OutletRec
deriving DecidableEq

/-- A logsheet header row: `h[0]` is the column name used as
`vr_name_in_code` for the synthesized Outlet, `h[3]` the bound variable. -/
structure HeaderRec where
  name : String
  vr : Option String
deriving DecidableEq

/-- A Logsheet object with its headers. `Logsheet.validate_headers` is not
under src/; headers are well-shaped by construction here, so the
validation pass is a no-op in this embedding. -/
structure LogObj where
  id : String
  headers : List HeaderRec
deriving DecidableEq

/-- One Edge queued under the Action: the inlet, the id of the research
object owning the outlet (a prior Process or a Logsheet), and the outlet
identity (`vr_name_in_code` for a synthesized logsheet Outlet). -/
structure EdgeRec where
  inletId : String
  sourceId : String
  outletId : String
deriving DecidableEq

/-- The Action of one linking pass: the queued edges and whether
`action.commit = True; action.execute()` ran. -/
structure ActionRec where
  queued : List EdgeRec
  committed : Bool
deriving DecidableEq

/-- The `for outlet in pr.outputs.values()` loop of `make_all_edges`
(build_pl.py, lines 58-63): skip outlets whose output has no bound
variable; create an Edge when the bound variable and owning step identity
both match the input's. `outlet.puts[0]` on an empty list raises. -/
def outletsEdges (ivr : String) (ipr : Option String) (inletId : String) (prId : String) :
    List OutletRec → Except String (List EdgeRec)
  | [] => .ok []
  | outlet :: rest =>
    match outlet.puts.head? with
    | Option.none => .error "IndexError"
    | some output =>
      match output.vr with
      | Option.none => outletsEdges ivr ipr inletId prId rest
      | some ovr =>
        if ovr = ivr ∧ output.pr = ipr then do
          let es ← outletsEdges ivr ipr inletId prId rest
          pure (⟨inletId, prId, outlet.id⟩ :: es)
        else outletsEdges ivr ipr inletId prId rest

/-- The `for pr in all_pr_objs` loop (build_pl.py, lines 57-63),
restricted to the steps defined before `ro`. -/
def priorEdges (ivr : String) (ipr : Option String) (inletId : String) :
    List ProcObj → Except String (List EdgeRec)
  | [] => .ok []
  | pr :: rest => do
    let es ← outletsEdges ivr ipr inletId pr.id pr.outputs
    let es2 ← priorEdges ivr ipr inletId rest
    pure (es ++ es2)

/-- The `for h in lg.headers` loop (build_pl.py, lines 66-69): synthesize
an Outlet for each header bound to the input's variable and link it. -/
def headerEdges (ivr : String) (inletId : String) (lgId : String) :
    List HeaderRec → List EdgeRec
  | [] => []
  | h :: rest =>
    if h.vr = some ivr then ⟨inletId, lgId, h.name⟩ :: headerEdges ivr inletId lgId rest
    else headerEdges ivr inletId lgId rest

/-- The `for lg in lg_objs` loop (build_pl.py, lines 64-69). -/
def logsheetEdges (ivr : String) (inletId : String) : List LogObj → List EdgeRec
  | [] => []
  | lg :: rest => headerEdges ivr inletId lg.id lg.headers ++ logsheetEdges ivr inletId rest

/-- The body of the `for inlet in ro.inputs.values()` loop (build_pl.py,
lines 53-69): read `inlet.puts[0]`; skip inlets with no bound variable;
otherwise collect matches from prior steps, then from logsheet headers. -/
def inletEdges (prior : List ProcObj) (lgs : List LogObj) (inlet : InletRec) :
    Except String (List EdgeRec) :=
  match inlet.puts.head? with
  | Option.none => .error "IndexError"
  | some input =>
    match input.vr with
    | Option.none => pure []
    | some ivr => do
      let es ← priorEdges ivr input.pr inlet.id prior
      pure (es ++ logsheetEdges ivr inlet.id lgs)

/-- The `for inlet` loop folded over all of `ro`'s inputs. -/
def allInletEdges (prior : List ProcObj) (lgs : List LogObj) :
    List InletRec → Except String (List EdgeRec)
  | [] => .ok []
  | inlet :: rest => do
    let es ← inletEdges prior lgs inlet
    let es2 ← allInletEdges prior lgs rest
    pure (es ++ es2)

/-- Embedding of `make_all_edges` (build_pl.py, lines 43-73):
`all_pr_objs.index(ro)` finds `ro`'s position in the creation-ordered
Process list (raising `ValueError` when absent), only the strictly earlier
steps are searched, one Action collects every Edge created during the
pass, and the Action is committed once at the end
(`action.commit = True; action.execute()`). -/
def make_all_edges (prs : List ProcObj) (lgs : List LogObj) (ro : ProcObj) :
    Except String ActionRec :=
  match prs.findIdx? (fun p => p.id == ro.id) with
  | Option.none => .error "ValueError"
  | some lastIdx => do
    let prior := prs.take lastIdx
    let edges ← allInletEdges prior lgs ro.inputs
    pure { queued := edges, committed := true }

theorem outletsEdges_spec (ivr : String) (ipr : Option String) (inletId prId : String)
    (outs : List OutletRec) (hput : ∀ o ∈ outs, o.puts ≠ []) :
    ∃ es, outletsEdges ivr ipr inletId prId outs = .ok es
      ∧ (∀ e ∈ es, e.inletId = inletId ∧ e.sourceId = prId)
      ∧ (∀ outlet ∈ outs, ∀ output, outlet.puts.head? = some output →
          output.vr = some ivr → output.pr = ipr →
          EdgeRec.mk inletId prId outlet.id ∈ es)
      ∧ ((∀ outlet ∈ outs, ∀ output, outlet.puts.head? = some output →
          ¬(output.vr = some ivr ∧ output.pr = ipr)) → es = []) := by
  induction outs with
  | nil =>
    refine ⟨[], rfl, ?_, ?_, fun _ => rfl⟩
    · intro e he
      cases he
    · intro o ho
      cases ho
  | cons outlet rest ih =>
    obtain ⟨es, hes, hsrc, hmatch, hempty⟩ :=
      ih (fun o ho => hput o (List.mem_cons_of_mem _ ho))
    rcases hhd : outlet.puts.head? with _ | output
    · rw [List.head?_eq_none_iff] at hhd
      exact absurd hhd (hput outlet (List.mem_cons_self _ _))
    · rcases hvr : output.vr with _ | ovr
      · refine ⟨es, ?_, hsrc, ?_, ?_⟩
        · simp only [outletsEdges, hhd, hvr]
          exact hes
        · intro o ho out hout hovr hopr
          rcases List.mem_cons.mp ho with ho | ho
          · subst ho
            rw [hhd] at hout
            injection hout with hout
            subst hout
            rw [hvr] at hovr
            cases hovr
          · exact hmatch o ho out hout hovr hopr
        · intro hnone
          exact hempty (fun o ho => hnone o (List.mem_cons_of_mem _ ho))
      · by_cases hcond : ovr = ivr ∧ output.pr = ipr
        · refine ⟨EdgeRec.mk inletId prId outlet.id :: es, ?_, ?_, ?_, ?_⟩
          · simp only [outletsEdges, hhd, hvr, if_pos hcond]
            rw [hes, except_ok_bind]
            rfl
          · intro e he
            rcases List.mem_cons.mp he with he | he
            · subst he
              exact ⟨rfl, rfl⟩
            · exact hsrc e he
          · intro o ho out hout hovr hopr
            rcases List.mem_cons.mp ho with ho | ho
            · subst ho
              exact List.mem_cons_self _ _
            · exact List.mem_cons_of_mem _ (hmatch o ho out hout hovr hopr)
          · intro hnone
            exfalso
            refine hnone outlet (List.mem_cons_self _ _) output hhd ⟨?_, hcond.2⟩
            rw [hvr, hcond.1]
        · refine ⟨es, ?_, hsrc, ?_, ?_⟩
          · simp only [outletsEdges, hhd, hvr, if_neg hcond]
            exact hes
          · intro o ho out hout hovr hopr
            rcases List.mem_cons.mp ho with ho | ho
            · subst ho
              rw [hhd] at hout
              injection hout with hout
              subst hout
              rw [hvr] at hovr
              injection hovr with hovr
              exact absurd ⟨hovr, hopr⟩ hcond
            · exact hmatch o ho out hout hovr hopr
          · intro hnone
            exact hempty (fun o ho => hnone o (List.mem_cons_of_mem _ ho))

theorem priorEdges_spec (ivr : String) (ipr : Option String) (inletId : String)
    (prior : List ProcObj) (hput : ∀ pr ∈ prior, ∀ o ∈ pr.outputs, o.puts ≠ []) :
    ∃ es, priorEdges ivr ipr inletId prior = .ok es
      ∧ (∀ e ∈ es, e.inletId = inletId ∧ e.sourceId ∈ prior.map (fun p => p.id))
      ∧ (∀ pr ∈ prior, ∀ outlet ∈ pr.outputs, ∀ output, outlet.puts.head? = some output →
          output.vr = some ivr → output.pr = ipr →
          EdgeRec.mk inletId pr.id outlet.id ∈ es)
      ∧ ((∀ pr ∈ prior, ∀ outlet ∈ pr.outputs, ∀ output, outlet.puts.head? = some output →
          ¬(output.vr = some ivr ∧ output.pr = ipr)) → es = []) := by
  induction prior with
  | nil =>
    refine ⟨[], rfl, ?_, ?_, fun _ => rfl⟩
    · intro e he
      cases he
    · intro p hp
      cases hp
  | cons pr rest ih =>
    obtain ⟨es2, hes2, hsrc2, hmatch2, hempty2⟩ :=
      ih (fun p hp => hput p (List.mem_cons_of_mem _ hp))
    obtain ⟨es1, hes1, hsrc1, hmatch1, hempty1⟩ :=
      outletsEdges_spec ivr ipr inletId pr.id pr.outputs
        (hput pr (List.mem_cons_self _ _))
    refine ⟨es1 ++ es2, ?_, ?_, ?_, ?_⟩
    · unfold priorEdges
      rw [hes1, except_ok_bind, hes2, except_ok_bind]
      rfl
    · intro e he
      rcases List.mem_append.mp he with he | he
      · obtain ⟨h1, h2⟩ := hsrc1 e he
        exact ⟨h1, by rw [h2]; exact List.mem_map.mpr ⟨pr, List.mem_cons_self _ _, rfl⟩⟩
      · obtain ⟨h1, h2⟩ := hsrc2 e he
        refine ⟨h1, ?_⟩
        obtain ⟨p, hp, hpe⟩ := List.mem_map.mp h2
        exact List.mem_map.mpr ⟨p, List.mem_cons_of_mem _ hp, hpe⟩
    · intro p hp outlet ho output hout hovr hopr
      rcases List.mem_cons.mp hp with hp | hp
      · subst hp
        exact List.mem_append_left _ (hmatch1 outlet ho output hout hovr hopr)
      · exact List.mem_append_right _ (hmatch2 p hp outlet ho output hout hovr hopr)
    · intro hnone
      rw [hempty1 (fun o ho out hout hc =>
          hnone pr (List.mem_cons_self _ _) o ho out hout hc),
        hempty2 (fun p hp o ho out hout hc =>
          hnone p (List.mem_cons_of_mem _ hp) o ho out hout hc)]
      rfl

theorem headerEdges_spec (ivr inletId lgId : String) (hs : List HeaderRec) :
    (∀ e ∈ headerEdges ivr inletId lgId hs, e.inletId = inletId ∧ e.sourceId = lgId)
    ∧ (∀ h ∈ hs, h.vr = some ivr →
        EdgeRec.mk inletId lgId h.name ∈ headerEdges ivr inletId lgId hs)
    ∧ ((∀ h ∈ hs, h.vr ≠ some ivr) → headerEdges ivr inletId lgId hs = []) := by
  induction hs with
  | nil =>
    refine ⟨?_, ?_, fun _ => rfl⟩
    · intro e he
      cases he
    · intro h hh
      cases hh
  | cons h rest ih =>
    obtain ⟨ihsrc, ihmatch, ihempty⟩ := ih
    by_cases hvr : h.vr = some ivr
    · refine ⟨?_, ?_, ?_⟩
      · intro e he
        unfold headerEdges at he
        rw [if_pos hvr] at he
        rcases List.mem_cons.mp he with he | he
        · subst he
          exact ⟨rfl, rfl⟩
        · exact ihsrc e he
      · intro h2 hh2 hvr2
        unfold headerEdges
        rw [if_pos hvr]
        rcases List.mem_cons.mp hh2 with hh2 | hh2
        · subst hh2
          exact List.mem_cons_self _ _
        · exact List.mem_cons_of_mem _ (ihmatch h2 hh2 hvr2)
      · intro hnone
        exact absurd hvr (hnone h (List.mem_cons_self _ _))
    · refine ⟨?_, ?_, ?_⟩
      · intro e he
        unfold headerEdges at he
        rw [if_neg hvr] at he
        exact ihsrc e he
      · intro h2 hh2 hvr2
        unfold headerEdges
        rw [if_neg hvr]
        rcases List.mem_cons.mp hh2 with hh2 | hh2
        · subst hh2
          exact absurd hvr2 hvr
        · exact ihmatch h2 hh2 hvr2
      · intro hnone
        unfold headerEdges
        rw [if_neg hvr]
        exact ihempty (fun h2 hh2 => hnone h2 (List.mem_cons_of_mem _ hh2))

theorem logsheetEdges_spec (ivr inletId : String) (lgs : List LogObj) :
    (∀ e ∈ logsheetEdges ivr inletId lgs, e.inletId = inletId
      ∧ e.sourceId ∈ lgs.map (fun l => l.id))
    ∧ (∀ lg ∈ lgs, ∀ h ∈ lg.headers, h.vr = some ivr →
        EdgeRec.mk inletId lg.id h.name ∈ logsheetEdges ivr inletId lgs)
    ∧ ((∀ lg ∈ lgs, ∀ h ∈ lg.headers, h.vr ≠ some ivr) →
        logsheetEdges ivr inletId lgs = []) := by
  induction lgs with
  | nil =>
    refine ⟨?_, ?_, fun _ => rfl⟩
    · intro e he
      cases he
    · intro l hl
      cases hl
  | cons lg rest ih =>
    obtain ⟨ihsrc, ihmatch, ihempty⟩ := ih
    obtain ⟨hsrc1, hmatch1, hempty1⟩ := headerEdges_spec ivr inletId lg.id lg.headers
    refine ⟨?_, ?_, ?_⟩
    · intro e he
      unfold logsheetEdges at he
      rcases List.mem_append.mp he with he | he
      · obtain ⟨h1, h2⟩ := hsrc1 e he
        exact ⟨h1, by rw [h2]; exact List.mem_map.mpr ⟨lg, List.mem_cons_self _ _, rfl⟩⟩
      · obtain ⟨h1, h2⟩ := ihsrc e he
        obtain ⟨l, hl, hle⟩ := List.mem_map.mp h2
        exact ⟨h1, List.mem_map.mpr ⟨l, List.mem_cons_of_mem _ hl, hle⟩⟩
    · intro l hl h hh hvr
      unfold logsheetEdges
      rcases List.mem_cons.mp hl with hl | hl
      · subst hl
        exact List.mem_append_left _ (hmatch1 h hh hvr)
      · exact List.mem_append_right _ (ihmatch l hl h hh hvr)
    · intro hnone
      unfold logsheetEdges
      rw [hempty1 (fun h hh => hnone lg (List.mem_cons_self _ _) h hh),
        ihempty (fun l hl h hh => hnone l (List.mem_cons_of_mem _ hl) h hh)]
      rfl

theorem inletEdges_spec (prior : List ProcObj) (lgs : List LogObj) (inlet : InletRec)
    (hin : inlet.puts ≠ [])
    (hout : ∀ pr ∈ prior, ∀ o ∈ pr.outputs, o.puts ≠ []) :
    ∃ es, inletEdges prior lgs inlet = .ok es
      ∧ (∀ e ∈ es, e.inletId = inlet.id
          ∧ (e.sourceId ∈ prior.map (fun p => p.id) ∨ e.sourceId ∈ lgs.map (fun l => l.id)))
      ∧ (∀ input, inlet.puts.head? = some input → ∀ ivr, input.vr = some ivr →
          (∀ pr ∈ prior, ∀ outlet ∈ pr.outputs, ∀ output, outlet.puts.head? = some output →
            output.vr = some ivr → output.pr = input.pr →
            EdgeRec.mk inlet.id pr.id outlet.id ∈ es)
          ∧ (∀ lg ∈ lgs, ∀ h ∈ lg.headers, h.vr = some ivr →
            EdgeRec.mk inlet.id lg.id h.name ∈ es))
      ∧ (∀ input, inlet.puts.head? = some input → ∀ ivr, input.vr = some ivr →
          (∀ pr ∈ prior, ∀ outlet ∈ pr.outputs, ∀ output, outlet.puts.head? = some output →
            ¬(output.vr = some ivr ∧ output.pr = input.pr)) →
          (∀ lg ∈ lgs, ∀ h ∈ lg.headers, h.vr ≠ some ivr) →
          es = []) := by
  rcases hhd : inlet.puts.head? with _ | input
  · rw [List.head?_eq_none_iff] at hhd
    exact absurd hhd hin
  · rcases hivr : input.vr with _ | ivr
    · refine ⟨[], ?_, ?_, ?_, ?_⟩
      · simp only [inletEdges, hhd, hivr]
        rfl
      · intro e he
        cases he
      · intro input2 hinput2 ivr2 hivr2
        injection hinput2 with hinput2
        subst hinput2
        rw [hivr] at hivr2
        cases hivr2
      · intro _ _ _ _ _ _
        rfl
    · obtain ⟨pes, hpes, hpsrc, hpmatch, hpempty⟩ :=
        priorEdges_spec ivr input.pr inlet.id prior hout
      obtain ⟨hlsrc, hlmatch, hlempty⟩ := logsheetEdges_spec ivr inlet.id lgs
      refine ⟨pes ++ logsheetEdges ivr inlet.id lgs, ?_, ?_, ?_, ?_⟩
      · simp only [inletEdges, hhd, hivr]
        rw [hpes, except_ok_bind]
        rfl
      · intro e he
        rcases List.mem_append.mp he with he | he
        · obtain ⟨h1, h2⟩ := hpsrc e he
          exact ⟨h1, Or.inl h2⟩
        · obtain ⟨h1, h2⟩ := hlsrc e he
          exact ⟨h1, Or.inr h2⟩
      · intro input2 hinput2 ivr2 hivr2
        injection hinput2 with hinput2
        subst hinput2
        rw [hivr] at hivr2
        injection hivr2 with hivr2
        subst hivr2
        constructor
        · intro pr hpr outlet ho output hohd hovr hopr
          exact List.mem_append_left _ (hpmatch pr hpr outlet ho output hohd hovr hopr)
        · intro lg hlg h hh hhvr
          exact List.mem_append_right _ (hlmatch lg hlg h hh hhvr)
      · intro input2 hinput2 ivr2 hivr2 hnopr hnolg
        injection hinput2 with hinput2
        subst hinput2
        rw [hivr] at hivr2
        injection hivr2 with hivr2
        subst hivr2
        rw [hpempty hnopr, hlempty hnolg]
        rfl

theorem allInletEdges_spec (prior : List ProcObj) (lgs : List LogObj)
    (inlets : List InletRec)
    (hin : ∀ inlet ∈ inlets, inlet.puts ≠ [])
    (hout : ∀ pr ∈ prior, ∀ o ∈ pr.outputs, o.puts ≠ []) :
    ∃ es, allInletEdges prior lgs inlets = .ok es
      ∧ (∀ e ∈ es,
          e.sourceId ∈ prior.map (fun p => p.id) ∨ e.sourceId ∈ lgs.map (fun l => l.id))
      ∧ (∀ inlet ∈ inlets, ∀ input, inlet.puts.head? = some input →
          ∀ ivr, input.vr = some ivr →
          ∀ pr ∈ prior, ∀ outlet ∈ pr.outputs, ∀ output, outlet.puts.head? = some output →
            output.vr = some ivr → output.pr = input.pr →
            EdgeRec.mk inlet.id pr.id outlet.id ∈ es)
      ∧ ((∀ inlet ∈ inlets, ∀ input, inlet.puts.head? = some input →
          ∀ ivr, input.vr = some ivr →
          (∀ pr ∈ prior, ∀ outlet ∈ pr.outputs, ∀ output, outlet.puts.head? = some output →
            ¬(output.vr = some ivr ∧ output.pr = input.pr))
          ∧ (∀ lg ∈ lgs, ∀ h ∈ lg.headers, h.vr ≠ some ivr)) →
          es = []) := by
  induction inlets with
  | nil =>
    refine ⟨[], rfl, ?_, ?_, fun _ => rfl⟩
    · intro e he
      cases he
    · intro i hi
      cases hi
  | cons inlet rest ih =>
    obtain ⟨es2, hes2, hsrc2, hmatch2, hempty2⟩ :=
      ih (fun i hi => hin i (List.mem_cons_of_mem _ hi))
    obtain ⟨es1, hes1, hsrc1, hmatch1, hempty1⟩ :=
      inletEdges_spec prior lgs inlet (hin inlet (List.mem_cons_self _ _)) hout
    refine ⟨es1 ++ es2, ?_, ?_, ?_, ?_⟩
    · unfold allInletEdges
      rw [hes1, except_ok_bind, hes2, except_ok_bind]
      rfl
    · intro e he
      rcases List.mem_append.mp he with he | he
      · exact (hsrc1 e he).2
      · exact hsrc2 e he
    · intro i hi input hinput ivr hivr pr hpr outlet ho output hohd hovr hopr
      rcases List.mem_cons.mp hi with hi | hi
      · subst hi
        exact List.mem_append_left _
          ((hmatch1 input hinput ivr hivr).1 pr hpr outlet ho output hohd hovr hopr)
      · exact List.mem_append_right _
          (hmatch2 i hi input hinput ivr hivr pr hpr outlet ho output hohd hovr hopr)
    · intro hno
      have h1 : es1 = [] := by
        rcases hhd : inlet.puts.head? with _ | input
        · rw [List.head?_eq_none_iff] at hhd
          exact absurd hhd (hin inlet (List.mem_cons_self _ _))
        · rcases hivr : input.vr with _ | ivr
          · rcases hes1' : inletEdges prior lgs inlet with e | es1'
            · rw [hes1'] at hes1
              cases hes1
            · rw [hes1'] at hes1
              injection hes1 with hes1
              subst hes1
              simp only [inletEdges, hhd, hivr] at hes1'
              injection hes1' with hes1'
              exact hes1'.symm
          · obtain ⟨hnopr, hnolg⟩ :=
              hno inlet (List.mem_cons_self _ _) input hhd ivr hivr
            exact hempty1 input hhd ivr hivr hnopr hnolg
      rw [h1, hempty2 (fun i hi => hno i (List.mem_cons_of_mem _ hi))]
      rfl

/-- C8: when linking step `ro`, only the steps defined before it (its
strict predecessors in the creation-ordered Process list) and the
logsheets are searched for producers: every queued edge's source is one of
them; an edge is created for each output whose bound variable and owning
step identity exactly match an input's; when nothing matches, zero edges
are created and no error is raised; and all edges of the pass are queued
under a single Action that is committed once at the end. -/
theorem c8_make_all_edges (prs : List ProcObj) (lgs : List LogObj) (ro : ProcObj)
    (i : Nat)
    (hidx : prs.findIdx? (fun p => p.id == ro.id) = some i)
    (hin : ∀ inlet ∈ ro.inputs, inlet.puts ≠ [])
    (hout : ∀ pr ∈ prs.take i, ∀ o ∈ pr.outputs, o.puts ≠ []) :
    ∃ a, make_all_edges prs lgs ro = .ok a
      ∧ a.committed = true
      ∧ (∀ e ∈ a.queued, e.sourceId ∈ (prs.take i).map (fun p => p.id)
          ∨ e.sourceId ∈ lgs.map (fun l => l.id))
      ∧ (∀ inlet ∈ ro.inputs, ∀ input, inlet.puts.head? = some input →
          ∀ ivr, input.vr = some ivr →
          ∀ pr ∈ prs.take i, ∀ outlet ∈ pr.outputs, ∀ output,
            outlet.puts.head? = some output →
            output.vr = some ivr → output.pr = input.pr →
            EdgeRec.mk inlet.id pr.id outlet.id ∈ a.queued)
      ∧ ((∀ inlet ∈ ro.inputs, ∀ input, inlet.puts.head? = some input →
          ∀ ivr, input.vr = some ivr →
          (∀ pr ∈ prs.take i, ∀ outlet ∈ pr.outputs, ∀ output,
            outlet.puts.head? = some output →
            ¬(output.vr = some ivr ∧ output.pr = input.pr))
          ∧ (∀ lg ∈ lgs, ∀ h ∈ lg.headers, h.vr ≠ some ivr)) →
          a.queued = []) := by
  obtain ⟨es, hes, hsrc, hmatch, hempty⟩ :=
    allInletEdges_spec (prs.take i) lgs ro.inputs hin hout
  refine ⟨⟨es, true⟩, ?_, rfl, hsrc, hmatch, hempty⟩
  simp only [make_all_edges, hidx]
  rw [hes, except_ok_bind]
  rfl

/-- C8 witness: process `A` (defined first, output bound to variable `V`
and owner `A`) and process `B` (defined second, one input bound to `V`
with owner `A`); linking `B` queues exactly the edge `A → B`'s records
under one committed Action. Applying the same theorem with a producer of
a different variable yields zero edges and no error. -/
theorem c8_make_all_edges_witness :
    (∃ a, make_all_edges
        [⟨"PRA", [], [⟨"outX", [⟨some "VRv", some "PRA"⟩]⟩]⟩,
          ⟨"PRB", [⟨"inY", [⟨some "VRv", some "PRA"⟩]⟩], []⟩]
        [] ⟨"PRB", [⟨"inY", [⟨some "VRv", some "PRA"⟩]⟩], []⟩ = .ok a
      ∧ a.committed = true
      ∧ EdgeRec.mk "inY" "PRA" "outX" ∈ a.queued)
    ∧ (∃ a, make_all_edges
        [⟨"PRA", [], [⟨"outX", [⟨some "VRw", some "PRA"⟩]⟩]⟩,
          ⟨"PRB", [⟨"inY", [⟨some "VRv", some "PRA"⟩]⟩], []⟩]
        [] ⟨"PRB", [⟨"inY", [⟨some "VRv", some "PRA"⟩]⟩], []⟩ = .ok a
      ∧ a.committed = true ∧ a.queued = []) := by
  constructor
  · obtain ⟨a, ha, hc, -, hm, -⟩ := c8_make_all_edges
      [⟨"PRA", [], [⟨"outX", [⟨some "VRv", some "PRA"⟩]⟩]⟩,
        ⟨"PRB", [⟨"inY", [⟨some "VRv", some "PRA"⟩]⟩], []⟩]
      [] ⟨"PRB", [⟨"inY", [⟨some "VRv", some "PRA"⟩]⟩], []⟩ 1 rfl
      (by decide) (by decide)
    refine ⟨a, ha, hc, ?_⟩
    exact hm ⟨"inY", [⟨some "VRv", some "PRA"⟩]⟩ (List.mem_singleton_self _)
      ⟨some "VRv", some "PRA"⟩ rfl "VRv" rfl
      ⟨"PRA", [], [⟨"outX", [⟨some "VRv", some "PRA"⟩]⟩]⟩ (List.mem_singleton_self _)
      ⟨"outX", [⟨some "VRv", some "PRA"⟩]⟩ (List.mem_singleton_self _)
      ⟨some "VRv", some "PRA"⟩ rfl rfl rfl
  · obtain ⟨a, ha, hc, -, -, hz⟩ := c8_make_all_edges
      [⟨"PRA", [], [⟨"outX", [⟨some "VRw", some "PRA"⟩]⟩]⟩,
        ⟨"PRB", [⟨"inY", [⟨some "VRv", some "PRA"⟩]⟩], []⟩]
      [] ⟨"PRB", [⟨"inY", [⟨some "VRv", some "PRA"⟩]⟩], []⟩ 1 rfl
      (by decide) (by decide)
    refine ⟨a, ha, hc, ?_⟩
    refine hz ?_
    intro inlet hi input hinput ivr hivr
    cases hi with
    | tail _ h => cases h
    | head =>
      injection hinput with hinput
      subst hinput
      injection hivr with hivr
      subst hivr
      constructor
      · intro pr hp outlet ho output hohd
        cases hp with
        | tail _ h => cases h
        | head =>
          cases ho with
          | tail _ h => cases h
          | head =>
            injection hohd with hohd
            subst hohd
            rintro ⟨hv, -⟩
            exact absurd hv (by decide)
      · intro lg hlg
        cases hlg

/-- One row of `pipelineobjects_graph`:
`(source_object_id, target_object_id, edge_id, is_active)`. -/
structure PipeRow where
  src : String
  tgt : String
  edgeId : String
  active : Bool
deriving DecidableEq

/-- Modelled from the spec: `Edge.load` (Bridges/edge.py is not under
src/). Per the data model, an Edge connects an Outlet to an Inlet, each a
connection point on its parent research object; the graph edge runs from
`edge.outlet.parent_ro` to `edge.inlet.parent_ro`. This record carries
those two parent ids. -/
structure EdgeInfo where
  outletParent : String
  inletParent : String
deriving DecidableEq

/-- Lookup of an edge id in the store (the `Edge.load` table). -/
def lookupEdge (table : List (String × EdgeInfo)) (eid : String) : Option EdgeInfo :=
  match table with
  | [] => Option.none
  | (k, v) :: rest => if k = eid then some v else lookupEdge rest eid

/-- Embedding of `build_pl` (build_pl.py, lines 22-41): select the active
rows of `pipelineobjects_graph`; raise `ValueError("No connections
found.")` when there are none; otherwise load each row's Edge and build a
multigraph with one edge per active row, from the outlet's owning object
to the inlet's owning object, carrying the edge id. An edge id the store
cannot resolve is an error. -/
def build_pl (rows : List PipeRow) (table : List (String × EdgeInfo)) :
    Except String (List (String × String × String)) :=
  let result := rows.filter (fun r => r.active)
  if result = [] then .error "No connections found."
  else do
    let edges ← result.mapM (fun row =>
      match lookupEdge table row.edgeId with
      | some e => Except.ok (row.edgeId, e)
      | Option.none => Except.error "KeyError")
    pure (edges.map (fun p => (p.2.outletParent, p.2.inletParent, p.1)))

theorem build_pl_mapM_spec (table : List (String × EdgeInfo)) :
    ∀ rows : List PipeRow,
      (∀ row ∈ rows, ∃ e, lookupEdge table row.edgeId = some e) →
      ∃ ps, rows.mapM (fun row =>
          match lookupEdge table row.edgeId with
          | some e => Except.ok (row.edgeId, e)
          | Option.none => Except.error "KeyError") = .ok ps
        ∧ ps.length = rows.length
        ∧ ∀ i row, rows.get? i = some row →
            ∃ e, lookupEdge table row.edgeId = some e ∧ ps.get? i = some (row.edgeId, e) := by
  intro rows
  induction rows with
  | nil =>
    intro _
    refine ⟨[], rfl, rfl, ?_⟩
    intro i row hrow
    cases i <;> cases hrow
  | cons row rest ih =>
    intro hall
    obtain ⟨e, he⟩ := hall row (List.mem_cons_self _ _)
    obtain ⟨ps, hps, hlen, hget⟩ := ih (fun r hr => hall r (List.mem_cons_of_mem _ hr))
    refine ⟨(row.edgeId, e) :: ps, ?_, ?_, ?_⟩
    · rw [List.mapM_cons, he, hps]
      rfl
    · simp [hlen]
    · intro i r hr
      cases i with
      | zero =>
        injection hr with hr
        subst hr
        exact ⟨e, he, rfl⟩
      | succ i =>
        exact hget i r hr

/-- C10: building the pipeline graph with zero active stored edges raises
`ValueError("No connections found.")` rather than returning an empty
graph; otherwise (when every active row's edge id resolves) it returns a
multigraph with one edge per active stored row, from the outlet's owning
object to the inlet's owning object. -/
theorem c10_build_pl (rows : List PipeRow) (table : List (String × EdgeInfo)) :
    (rows.filter (fun r => r.active) = [] →
      build_pl rows table = .error "No connections found.")
    ∧ (rows.filter (fun r => r.active) ≠ [] →
      (∀ row ∈ rows.filter (fun r => r.active), ∃ e, lookupEdge table row.edgeId = some e) →
      ∃ res, build_pl rows table = .ok res
        ∧ res.length = (rows.filter (fun r => r.active)).length
        ∧ ∀ i row, (rows.filter (fun r => r.active)).get? i = some row →
            ∃ e, lookupEdge table row.edgeId = some e
              ∧ res.get? i = some (e.outletParent, e.inletParent, row.edgeId)) := by
  constructor
  · intro h
    unfold build_pl
    rw [if_pos h]
  · intro hne hall
    obtain ⟨ps, hps, hlen, hget⟩ := build_pl_mapM_spec table _ hall
    refine ⟨ps.map (fun p => (p.2.outletParent, p.2.inletParent, p.1)), ?_, ?_, ?_⟩
    · unfold build_pl
      rw [if_neg hne, hps, except_ok_bind]
      rfl
    · rw [List.length_map, hlen]
    · intro i row hrow
      obtain ⟨e, he, hpi⟩ := hget i row hrow
      refine ⟨e, he, ?_⟩
      rw [List.get?_map, hpi]
      rfl

/-- C10 witness: an empty active set raises; a single active row with a
resolvable edge id yields one edge from the outlet's parent to the
inlet's parent. -/
theorem c10_build_pl_witness :
    build_pl [⟨"PR1", "PR2", "EG1", false⟩] [("EG1", ⟨"PR1", "PR2"⟩)]
      = .error "No connections found."
    ∧ ∃ res, build_pl [⟨"PR1", "PR2", "EG1", true⟩] [("EG1", ⟨"PR1", "PR2"⟩)] = .ok res
        ∧ res.length = 1
        ∧ ∃ e, lookupEdge [("EG1", ⟨"PR1", "PR2"⟩)] "EG1" = some e
            ∧ res.get? 0 = some (e.outletParent, e.inletParent, "EG1") := by
  constructor
  · exact (c10_build_pl [⟨"PR1", "PR2", "EG1", false⟩] [("EG1", ⟨"PR1", "PR2"⟩)]).1 rfl
  · obtain ⟨res, hres, hlen, hget⟩ :=
      (c10_build_pl [⟨"PR1", "PR2", "EG1", true⟩] [("EG1", ⟨"PR1", "PR2"⟩)]).2
        (by decide)
        (by
          intro row hrow
          cases hrow with
          | tail _ h => cases h
          | head => exact ⟨⟨"PR1", "PR2"⟩, rfl⟩)
    obtain ⟨e, he, hr0⟩ := hget 0 ⟨"PR1", "PR2", "EG1", true⟩ rfl
    exact ⟨res, hres, by rw [hlen]; rfl, e, he, hr0⟩

/-- The tagged variants of the cross-package config graph
(custom_classes.py): the classifier returns one of these classes and the
DAG stores an instance per node. -/
inductive VarNodeType where
  | unspecified
  | constant
  | inputVariable
  | outputVariable
  | logsheetVariable
  | dataObjectName
  | dataFilePath
  | loadConstantFromFile
deriving DecidableEq

/-- Modelled from the spec: the key constants of constants.py are not
under src/. `DATA_OBJECT_NAME_KEY` is the `"__"`-prefixed placeholder
naming the data object. -/
def DATA_OBJECT_NAME_KEY : String := "__data_object_name__"

/-- Modelled from the spec: the `"__"`-prefixed key marking a
logsheet-sourced variable (constants.py is not under src/). -/
def LOGSHEET_KEY : String := "__logsheet__"

/-- Modelled from the spec: the dictionary key requesting a constant
loaded from a file (constants.py is not under src/). -/
def LOAD_CONSTANT_FROM_FILE_KEY : String := "__load_constant_from_file__"

/-- Modelled from the spec: the dictionary key marking a data file path
(constants.py is not under src/). -/
def DATA_FILE_KEY : String := "__data_file__"

/-- Modelled from the spec: `helper_functions.is_specified` is not under
src/. An input left unspecified is the placeholder `"?"` (or absent,
modelled as `None`); everything else is specified. -/
def isSpecified : PyVal → Bool
  | .none => false
  | .str s => s != "?"
  | _ => true

/-- Python `s.startswith(pre)`, computed over the character lists. -/
def pyStartsWith (s pre : String) : Bool :=
  pre.data.isPrefixOf s.data

/-- Split a character list at every `'.'`. -/
def splitOnDot : List Char → List (List Char)
  | [] => [[]]
  | c :: rest =>
    match splitOnDot rest with
    | [] => [[c]]
    | p :: ps => if c = '.' then [] :: p :: ps else (c :: p) :: ps

/-- Modelled from the spec: `helper_functions.is_dynamic_variable` is not
under src/. Per §6, a dynamic variable reference is a fully qualified
`package.runnable.variable` name: exactly three nonempty dot-separated
components. -/
def isDynamicVariable (s : String) : Bool :=
  let parts := splitOnDot s.data
  parts.length == 3 && parts.all (fun p => p.length != 0)

/-- Embedding of `classify_input_type` (overhaul/input_classifier.py,
lines 10-40). `fileContents` models the filesystem read performed by
`load_constant_from_file` (an external collaborator). Returns the node
class together with the `attrs` value, when one is set. -/
def classify_input_type (fileContents : PyVal → PyVal) (input : PyVal) :
    VarNodeType × Option PyVal :=
  if !isSpecified input then (.unspecified, Option.none)
  else
    match input with
    | .str s =>
      if pyStartsWith s "__" then
        if s == DATA_OBJECT_NAME_KEY then (.dataObjectName, Option.none)
        else if pyStartsWith s LOGSHEET_KEY then (.logsheetVariable, Option.none)
        else if isDynamicVariable s then (.inputVariable, Option.none)
        else (.constant, some (.str s))
      else if isDynamicVariable s then (.inputVariable, Option.none)
      else (.constant, some (.str s))
    | .dict entries =>
      if entries.length != 1 then (.constant, some (.dict entries))
      else
        match entries with
        | [(k, v)] =>
          if k == LOAD_CONSTANT_FROM_FILE_KEY then (.loadConstantFromFile, some (fileContents v))
          else if k == DATA_FILE_KEY then (.dataFilePath, Option.none)
          else (.constant, some (.dict entries))
        | _ => (.constant, some (.dict entries))
    | v => (.constant, some v)

/-- A node of the cross-package config DAG: its uuid key, its
fully-qualified name, and the class of the stored `node` attribute. -/
structure DagNode where
  id : String
  name : String
  ty : VarNodeType
deriving DecidableEq

/-- The config multigraph: nodes plus edges
`(source id, target id, bridge tag)`; non-bridge edges carry `""`. -/
structure Dag where
  nodes : List DagNode
  edges : List (String × String × String)
deriving DecidableEq

/-- Embedding of `bridge_dynamic_variables` (create_dag_from_toml.py,
lines 15-37). The source must resolve to the first `OutputVariable` node
with the source name (an unresolved source reaches
`check_variable_properly_specified` — dag_info.py is not under src/ and is
modelled from the spec as raising a configuration error; if it returned,
the unbound `source_node` name would raise `NameError`, so this path is an
error either way). Each target must classify as `InputVariable`
(`assert`), must resolve to the first `Unspecified`/`InputVariable` node
with the target name; an `Unspecified` target node is replaced by an
`InputVariable` node with the same id and name, and one edge is added from
the source node to the target node tagged `package_name.bridge_name`. -/
def bridge_dynamic_variables (fileContents : PyVal → PyVal) (dag : Dag)
    (packageName bridgeName : String) (source : String) (targets : List PyVal) :
    Except String Dag :=
  match dag.nodes.find? (fun n => n.name == source && n.ty == VarNodeType.outputVariable) with
  | Option.none => .error ("configuration error: unresolved source " ++ source)
  | some sourceNode =>
    targets.foldlM
      (fun d target => do
        let tc := classify_input_type fileContents target
        if tc.1 ≠ VarNodeType.inputVariable then
          .error "AssertionError"
        else
          match target with
          | .str targetName =>
            match d.nodes.find? (fun n => n.name == targetName &&
                (n.ty == VarNodeType.unspecified || n.ty == VarNodeType.inputVariable)) with
            | Option.none => .error ("configuration error: unresolved target " ++ targetName)
            | some t =>
              let t2 := if t.ty = VarNodeType.unspecified then
                  { id := t.id, name := t.name, ty := VarNodeType.inputVariable }
                else t
              pure { nodes := d.nodes.map (fun n => if n.id = t.id then t2 else n),
                     edges := d.edges ++ [(sourceNode.id, t.id,
                       packageName ++ "." ++ bridgeName)] }
          | _ => .error "TypeError")
      dag

/-- Embedding of `bridge_packages` (create_dag_from_toml.py, lines 39-59).
`packageNamesEnv` is the externally supplied `PACKAGE_NAMES` environment
value (spec §6); its split result is passed along but unused. For every
package, bridge and source: a source classifying as `InputVariable` (a
fully qualified dynamic name) is bridged to the targets; a source
classifying as `LogsheetVariable` hits `continue` — the
`raise NotImplementedError("LogsheetVariable is not implemented yet.")`
on the following line is unreachable — so the bridge is silently skipped;
the `elif isinstance(source, Constant)` arm compares the source string
against a node class and is never taken. -/
def bridge_packages (fileContents : PyVal → PyVal) (packageNamesEnv : String) (dag : Dag)
    (allPackagesBridges : List (String × List (String × (PyVal × PyVal)))) :
    Except String Dag :=
  let _packageNames := packageNamesEnv.splitOn "."
  allPackagesBridges.foldlM
    (fun d pkg =>
      pkg.2.foldlM
        (fun d2 bridge => do
          let sources := match bridge.2.1 with
            | .list xs => xs
            | v => [v]
          let targets := match bridge.2.2 with
            | .list xs => xs
            | v => [v]
          sources.foldlM
            (fun d3 source => do
              let sc := classify_input_type fileContents source
              if sc.1 = VarNodeType.inputVariable then
                match source with
                | .str s => bridge_dynamic_variables fileContents d3 pkg.1 bridge.1 s targets
                | _ => .error "TypeError"
              else if sc.1 = VarNodeType.logsheetVariable then
                pure d3
              else
                pure d3)
            d2)
        d)
    dag

/-- C2: the claim states that a bridge whose source classifies as a
`LogsheetVariable` raises a `NotImplementedError` and is never silently
skipped. In the code, the `continue` statement on line 55 of
create_dag_from_toml.py executes before the
`raise NotImplementedError("LogsheetVariable is not implemented yet.")` on
line 56, which is therefore unreachable: bridging a package whose only
bridge has the logsheet-sourced source `"__logsheet__.col1"` returns the
input graph unchanged with no error — the bridge is silently skipped (no
edge is added, as the claim also says, but no error is raised). -/
theorem c2_logsheet_bridge_silently_skipped :
    bridge_packages (fun _ => PyVal.none) "pkgA.pkgB"
      ⟨[⟨"u1", "pkgA.step1.outVar", VarNodeType.outputVariable⟩,
        ⟨"u2", "pkgB.step2.inVar", VarNodeType.unspecified⟩], []⟩
      [("pkgA", [("bridge1", (.str "__logsheet__.col1", .str "pkgB.step2.inVar"))])]
      = .ok ⟨[⟨"u1", "pkgA.step1.outVar", VarNodeType.outputVariable⟩,
        ⟨"u2", "pkgB.step2.inVar", VarNodeType.unspecified⟩], []⟩ := by
  rfl

/-- C9: for a bridge whose source resolves to an `OutputVariable` node and
whose target classifies as an `InputVariable`: when the resolved target
node is currently `Unspecified`, it is replaced in the graph by an
`InputVariable` node with the same id and name, and one edge is added from
the source node to the target node tagged
`<package_name>.<bridge_name>`. -/
theorem c9_bridge_promotes_unspecified (fc : PyVal → PyVal) (dag : Dag)
    (pkg brg source target : String) (s t : DagNode)
    (hsrc : dag.nodes.find?
      (fun n => n.name == source && n.ty == VarNodeType.outputVariable) = some s)
    (hcl : classify_input_type fc (.str target) = (VarNodeType.inputVariable, Option.none))
    (htgt : dag.nodes.find? (fun n => n.name == target &&
      (n.ty == VarNodeType.unspecified || n.ty == VarNodeType.inputVariable)) = some t)
    (hun : t.ty = VarNodeType.unspecified) :
    bridge_dynamic_variables fc dag pkg brg source [.str target]
      = .ok ⟨dag.nodes.map (fun n => if n.id = t.id then
            { id := t.id, name := t.name, ty := VarNodeType.inputVariable } else n),
          dag.edges ++ [(s.id, t.id, pkg ++ "." ++ brg)]⟩ := by
  simp only [bridge_dynamic_variables, hsrc]
  rw [List.foldlM_cons]
  have hstep : (do
      let tc := classify_input_type fc (.str target)
      if tc.1 ≠ VarNodeType.inputVariable then
        (.error "AssertionError" : Except String Dag)
      else
        match PyVal.str target with
        | .str targetName =>
          match dag.nodes.find? (fun n => n.name == targetName &&
              (n.ty == VarNodeType.unspecified || n.ty == VarNodeType.inputVariable)) with
          | Option.none => .error ("configuration error: unresolved target " ++ targetName)
          | some t =>
            let t2 := if t.ty = VarNodeType.unspecified then
                { id := t.id, name := t.name, ty := VarNodeType.inputVariable }
              else t
            pure { nodes := dag.nodes.map (fun n => if n.id = t.id then t2 else n),
                   edges := dag.edges ++ [(s.id, t.id, pkg ++ "." ++ brg)] }
        | _ => .error "TypeError")
      = (.ok ⟨dag.nodes.map (fun n => if n.id = t.id then
            { id := t.id, name := t.name, ty := VarNodeType.inputVariable } else n),
          dag.edges ++ [(s.id, t.id, pkg ++ "." ++ brg)]⟩ : Except String Dag) := by
    rw [hcl]
    simp only [ne_eq, not_true_eq_false, if_false]
    rw [htgt]
    simp only [if_pos hun]
    rfl
  rw [hstep, except_ok_bind]
  rfl

/-- C9 witness: the two-node graph with `pkgA.step1.outVar` an
`OutputVariable` and `pkgB.step2.inVar` an `Unspecified` node; bridging
promotes the target to `InputVariable` and adds the single tagged edge. -/
theorem c9_bridge_promotes_unspecified_witness :
    bridge_dynamic_variables (fun _ => PyVal.none)
      ⟨[⟨"u1", "pkgA.step1.outVar", VarNodeType.outputVariable⟩,
        ⟨"u2", "pkgB.step2.inVar", VarNodeType.unspecified⟩], []⟩
      "pkgA" "bridge1" "pkgA.step1.outVar" [.str "pkgB.step2.inVar"]
      = .ok ⟨[⟨"u1", "pkgA.step1.outVar", VarNodeType.outputVariable⟩,
        ⟨"u2", "pkgB.step2.inVar", VarNodeType.inputVariable⟩],
        [("u1", "u2", "pkgA.bridge1")]⟩ :=
  c9_bridge_promotes_unspecified (fun _ => PyVal.none)
    ⟨[⟨"u1", "pkgA.step1.outVar", VarNodeType.outputVariable⟩,
      ⟨"u2", "pkgB.step2.inVar", VarNodeType.unspecified⟩], []⟩
    "pkgA" "bridge1" "pkgA.step1.outVar" "pkgB.step2.inVar"
    ⟨"u1", "pkgA.step1.outVar", VarNodeType.outputVariable⟩
    ⟨"u2", "pkgB.step2.inVar", VarNodeType.unspecified⟩
    rfl rfl rfl rfl

end ResearchOS
